import Mathlib

/-!
# FetchForge task orchestration: shallow embedding and verification

This file embeds the task-orchestration core of the FetchForge application
(Go, `main` package) in Lean 4 and proves the spec-level claims about it.

Modelling conventions:
* `time.Time` is modelled as `Int`, measured in seconds
  (`time.Since(u) < 30*time.Second` becomes `now - u < 30`,
  `t.Add(-1*time.Minute)` becomes `t - 60`, `time.After` is `<` / `>`).
* The Go `map[string]*Task` is modelled as an association list
  `List (String × Task)`; lookup takes the first matching entry, in-place
  update through a pointer rewrites the matching entry, map insert of a
  fresh key appends an entry (Go map iteration order is never used by the
  code: every snapshot walks `order`).
* Filesystem access (`os.Stat`, `filepath.WalkDir` of the task's output
  directory) is modelled by oracles passed in explicitly: a `stat`
  function and a directory listing in walk order.
* Random id generation (`newID`) is modelled by an explicitly supplied
  list of ids; freshness of the random ids is a hypothesis.
* `net/url` parsing (`defaultTitleFromURL`, `sourceHostFromURL`) is an
  external library concern; the two derived strings are supplied by an
  `Env` record.  No claim depends on their values.
* JSON (de)serialisation is the identity on the task list: import/export
  payloads are passed as `List Task` directly.
-/

namespace FetchForge

/-- Result of a successful `os.Stat`: directory flag, size and mtime. -/
structure FileStat where
  isDir : Bool
  size : Nat
  modTime : Int
deriving DecidableEq, Repr

/-- One entry seen by `filepath.WalkDir` over the task output directory. -/
structure DirEntry where
  name : String
  isDir : Bool
  modTime : Int
deriving DecidableEq, Repr

/-- Filesystem oracle: `stat path = none` models a failing `os.Stat`. -/
structure FS where
  stat : String → Option FileStat

/-- External URL-parsing collaborator (`net/url` based helpers). -/
structure Env where
  titleOf : String → String
  hostOf : String → String

/-- The `Task` record, field for field from the Go struct. -/
structure Task where
  id : String
  url : String
  title : String
  sourceHost : String
  status : String
  stage : String
  progress : String
  speed : String
  eta : String
  outputPath : String
  missingOutput : Bool
  errorMessage : String
  resume : Bool
  duration : Int
  filesize : Int
  width : Int
  height : Int
  createdAt : Int
  updatedAt : Int
deriving DecidableEq, Repr

def statusQueued : String := "Queued"

def statusRunning : String := "Running"

def statusSuccess : String := "Success"

def statusFailed : String := "Failed"

/-- In-memory app state: task map, creation order, worker queue contents. -/
structure AppState where
  tasks : List (String × Task)
  order : List String
  queue : List String
deriving DecidableEq, Repr

/-- Go map read `a.tasks[id]` (first matching entry). -/
def lookupTask : List (String × Task) → String → Option Task
  | [], _ => none
  | (k, t) :: rest, id => if k = id then some t else lookupTask rest id

/-- In-place update through the stored pointer (`*existing = item`). -/
def updateEntry (ts : List (String × Task)) (id : String) (t : Task) :
    List (String × Task) :=
  ts.map (fun p => if p.1 = id then (p.1, t) else p)

/-- Go map write `a.tasks[id] = &copy`. -/
def setTask (ts : List (String × Task)) (id : String) (t : Task) :
    List (String × Task) :=
  if (lookupTask ts id).isSome then updateEntry ts id t else ts ++ [(id, t)]

/-- Go map `delete(a.tasks, id)`. -/
def removeTask (ts : List (String × Task)) (id : String) :
    List (String × Task) :=
  ts.filter (fun p => p.1 ≠ id)

/-- ASCII whitespace class of `strings.TrimSpace` (the model's texts are
ASCII; Go additionally trims rare Unicode spaces). -/
def isSpaceGo (c : Char) : Bool :=
  c = ' ' || c = '\t' || c = '\n' || c = '\r' || c = '\x0b' || c = '\x0c'

/-- `strings.TrimSpace`. -/
def trimSpace (s : String) : String :=
  String.mk (((s.data.dropWhile isSpaceGo).reverse.dropWhile isSpaceGo).reverse)

/-- `outputMissing` from the source: blank path is never "missing"; a stat
failure or a directory means missing. -/
def outputMissing (fs : FS) (outputPath : String) : Bool :=
  if trimSpace outputPath = "" then false
  else
    match fs.stat outputPath with
    | none => true
    | some info => info.isDir

/-- `strings.Join` from the Go standard library. -/
def stringsJoin : List String → String → String
  | [], _ => ""
  | [x], _ => x
  | x :: y :: xs, sep => x ++ sep ++ stringsJoin (y :: xs) sep

/-- `normalizeForMatch`: lowercase, keep only ASCII letters and digits. -/
def normalizeForMatch (value : String) : String :=
  String.mk ((value.data.map Char.toLower).filter
    (fun c => ('a' ≤ c ∧ c ≤ 'z') ∨ ('0' ≤ c ∧ c ≤ '9')))

/-- `isPartialFile`: a `.part` substring or a `.ytdl` suffix, lowercased. -/
def isPartialFile (name : String) : Bool :=
  let lower := String.mk (name.data.map Char.toLower)
  decide (".part".data <:+: lower.data) || ".ytdl".data.isSuffixOf lower.data

/-- `shouldUpdateTitle`: blank, the literal placeholder, purely numeric, or
a hex string of length at least 12. -/
def shouldUpdateTitle (title : String) : Bool :=
  let t := trimSpace title
  if t = "" ∨ t = "Pending title" then true
  else
    let isNumeric := t.data.all (fun r => '0' ≤ r ∧ r ≤ '9')
    let isHex := t.data.all (fun r =>
      ('0' ≤ r ∧ r ≤ '9') ∨ ('a' ≤ r ∧ r ≤ 'f') ∨ ('A' ≤ r ∧ r ≤ 'F'))
    if isNumeric then true
    else if isHex ∧ 12 ≤ t.data.length then true
    else false

/-! ## URL extraction (`extractURLs`)

The source uses Go regexp `https?://[^\s]+` with `FindAllString`:
leftmost, non-overlapping matches; a match starts where the text has the
literal prefix `http://` or `https://` followed by at least one
non-whitespace character, and extends through the maximal run of
non-whitespace characters.  RE2's `\s` is `[\t\n\f\r ]`. -/

/-- Complement of RE2's `\s` character class. -/
def notSpaceRE2 (c : Char) : Bool :=
  !(c = ' ' || c = '\t' || c = '\n' || c = '\r' || c = '\x0c')

/-- Does a match of `https?://[^\s]+` start at this position? -/
def startsURL (l : List Char) : Bool :=
  ("https://".data.isPrefixOf l && decide (8 < (l.takeWhile notSpaceRE2).length))
    || ("http://".data.isPrefixOf l && decide (7 < (l.takeWhile notSpaceRE2).length))

/-- All raw (possibly repeated) matches of `https?://[^\s]+`, left to
right, with explicit fuel (any fuel of at least the text length is
enough: every step strictly shortens the text).  In the match branch the
head character is `'h'`, hence non-whitespace, so
`c :: rest.takeWhile notSpaceRE2` is the maximal non-whitespace run
starting at the match position. -/
def scanURLsF : Nat → List Char → List String
  | 0, _ => []
  | _, [] => []
  | fuel + 1, c :: rest =>
    if startsURL (c :: rest) then
      String.mk (c :: rest.takeWhile notSpaceRE2)
        :: scanURLsF fuel (rest.dropWhile notSpaceRE2)
    else
      scanURLsF fuel rest

/-- The raw match list of `regexp.FindAllString` on the text. -/
def scanURLs (l : List Char) : List String :=
  scanURLsF l.length l

/-- The dedup loop of `extractURLs` (the `seen` set as a list). -/
def dedupSeen : List String → List String → List String
  | [], _ => []
  | x :: xs, seen =>
    if x ∈ seen then dedupSeen xs seen else x :: dedupSeen xs (x :: seen)

/-- `extractURLs` from the source: regexp matches, deduplicated keeping
the first occurrence of each. -/
def extractURLs (text : String) : List String :=
  dedupSeen (scanURLs text.data) []

/-- Specification-side description of "the distinct elements, in order of
first appearance, each exactly once". -/
def dedupKeepFirst : List String → List String
  | [] => []
  | x :: xs => x :: dedupKeepFirst (xs.filter (fun y => y ≠ x))
termination_by l => l.length
decreasing_by
  simp only [List.length_cons]
  exact Nat.lt_succ_of_le (xs.filter_sublist).length_le

/-! ## Task creation (`CreateTasksFromText`) -/

/-- The task literal built inside the creation loop. -/
def newTaskFor (env : Env) (id url : String) (now : Int) : Task :=
  { id := id
    url := url
    title := env.titleOf url
    sourceHost := env.hostOf url
    status := statusQueued
    stage := "Parse URL"
    progress := ""
    speed := ""
    eta := ""
    outputPath := ""
    missingOutput := false
    errorMessage := ""
    resume := false
    duration := 0
    filesize := 0
    width := 0
    height := 0
    createdAt := now
    updatedAt := now }

/-- `CreateTasksFromText`: extract locators, allocate one task per locator
(ids supplied explicitly, modelling `newID`), append to map and order,
return the created copies, push the ids onto the queue. -/
def createTasksFromText (env : Env) (s : AppState) (text : String)
    (ids : List String) (now : Int) : List Task × AppState :=
  let urls := extractURLs text
  if urls = [] then ([], s)
  else
    let pairs := urls.zip ids
    let created := pairs.map (fun p => newTaskFor env p.2 p.1 now)
    let s' := pairs.foldl
      (fun st p =>
        { st with
          tasks := setTask st.tasks p.2 (newTaskFor env p.2 p.1 now)
          order := st.order ++ [p.2] }) s
    (created, { s' with queue := s'.queue ++ pairs.map (fun p => p.2) })

/-- Ordered snapshot used by `ListTasks`, `ExportTasks` and `saveTasks`. -/
def listTasks (s : AppState) : List Task :=
  s.order.filterMap (lookupTask s.tasks)

/-- `DeleteTask`.  `trashOk` models whether `moveToTrash` succeeds; on a
trash failure the record is left intact and an error is returned.  The
second component is the error message, `none` on success. -/
def deleteTask (fs : FS) (trashOk : Bool) (s : AppState) (id : String) :
    AppState × Option String :=
  match lookupTask s.tasks id with
  | none => (s, some "task not found")
  | some task =>
    let needTrash : Bool := decide (task.outputPath ≠ "") &&
      (match fs.stat task.outputPath with
       | some info => !info.isDir
       | none => false)
    if needTrash && !trashOk then (s, some "failed to move file to trash")
    else
      ({ s with
          tasks := removeTask s.tasks id
          order := s.order.filter (fun existing => existing ≠ id) },
        none)

/-! ## Import / export reconciliation (`ImportTasks`, `ExportTasks`) -/

/-- Per-record preprocessing of `ImportTasks`: optional reset of already
downloaded records, then unconditional recomputation of `missingOutput`
from disk. -/
def procRecord (fs : FS) (overwriteDownloaded : Bool) (t : Task) : Task :=
  let t :=
    if overwriteDownloaded ∧ t.status = statusSuccess then
      { t with
          status := statusQueued
          progress := ""
          outputPath := ""
          missingOutput := false
          errorMessage := "" }
    else t
  { t with missingOutput := outputMissing fs t.outputPath }

/-- The `merge` branch of `ImportTasks`, one record at a time.  Returns
the final map, the ids appended to `order`, and the ids to enqueue. -/
def mergeGo : List (String × Task) → List Task →
    List (String × Task) × List String × List String
  | tasks, [] => (tasks, [], [])
  | tasks, item :: rest =>
    match lookupTask tasks item.id with
    | some existing =>
      if existing.updatedAt < item.updatedAt then
        mergeGo (updateEntry tasks item.id { item with createdAt := existing.createdAt }) rest
      else
        mergeGo tasks rest
    | none =>
      let res := mergeGo (tasks ++ [(item.id, item)]) rest
      (res.1, item.id :: res.2.1,
        if item.status = statusQueued then item.id :: res.2.2 else res.2.2)

/-- State after the `merge` branch, plus the enqueued ids. -/
def mergePhase (s : AppState) (items : List Task) : AppState × List String :=
  let res := mergeGo s.tasks items
  ({ tasks := res.1
     order := s.order ++ res.2.1
     queue := s.queue ++ res.2.2 }, res.2.2)

/-- State after the `replace` branch, plus the enqueued ids. -/
def replacePhase (s : AppState) (items : List Task) : AppState × List String :=
  let enq := (items.filter (fun t => t.status = statusQueued)).map (fun t => t.id)
  ({ tasks := items.foldl (fun ts t => setTask ts t.id t) []
     order := items.map (fun t => t.id)
     queue := s.queue ++ enq }, enq)

/-- `ImportTasks` (payload already decoded from JSON).  Returns the new
state, the returned snapshot, and the error message if any. -/
def importTasks (fs : FS) (s : AppState) (items : List Task) (mode : String)
    (overwriteDownloaded : Bool) : AppState × List Task × Option String :=
  if items.any (fun t => trimSpace t.id = "") then (s, [], some "task id is required")
  else
    let processed := items.map (procRecord fs overwriteDownloaded)
    if mode = "merge" then
      let res := mergePhase s processed
      (res.1, listTasks res.1, none)
    else if mode = "replace" then
      let res := replacePhase s processed
      (res.1, listTasks res.1, none)
    else (s, [], some "invalid import mode")

/-- `loadTasks`: append every persisted record to the map and to order. -/
def loadTasks (s : AppState) (items : List Task) : AppState :=
  items.foldl
    (fun st t => { st with tasks := setTask st.tasks t.id t, order := st.order ++ [t.id] })
    s

/-! ## Resume operations (`ResumeTask`, `ForceResumeTask`) -/

/-- `ResumeTask`: rejected while the task is actively running inside the
30 second grace window; otherwise reset to `Queued` and re-enqueued. -/
def resumeTask (s : AppState) (id : String) (now : Int) :
    AppState × Option String :=
  match lookupTask s.tasks id with
  | none => (s, some "task not found")
  | some task =>
    if task.status = statusRunning ∧ now - task.updatedAt < 30 then
      (s, some "task is already running")
    else
      let t' := { task with
        status := statusQueued
        stage := "Resume"
        progress := ""
        errorMessage := ""
        resume := true
        updatedAt := now }
      ({ s with tasks := updateEntry s.tasks id t', queue := s.queue ++ [id] }, none)

/-- The flag-accumulating body of the `WalkDir` loop in
`GetTaskResumeStatus`: `found` (a partial file whose normalized name
contains the normalized title) and `foundRecentPartial` (a partial file
modified after `createdAt - 1min`); once `found` is set the remaining
entries are skipped. -/
def walkStep (createdAt : Int) (nt : String) (acc : Bool × Bool)
    (e : DirEntry) : Bool × Bool :=
  if acc.1 || e.isDir then acc
  else if !(isPartialFile e.name) then acc
  else
    (acc.1 || decide (nt.data <:+: (normalizeForMatch e.name).data),
      acc.2 || decide (createdAt - 60 < e.modTime))

def walkFlags (listing : List DirEntry) (createdAt : Int) (nt : String) :
    Bool × Bool :=
  listing.foldl (walkStep createdAt nt) (false, false)

/-- The 30-second "actively running" grace-window test
(`status == statusRunning && time.Since(updatedAt) < 30*time.Second`). -/
def graceActive (task : Task) (now : Int) : Bool :=
  decide (task.status = statusRunning) && decide (now - task.updatedAt < 30)

/-- The partial-artifact test of `GetTaskResumeStatus`: `outputPath` is a
regular file whose current size is strictly below the recorded filesize. -/
def sizeSignal (fs : FS) (task : Task) : Bool :=
  let outputPath := trimSpace task.outputPath
  match fs.stat outputPath with
  | some info =>
    decide (outputPath ≠ "") && !info.isDir && decide (0 < task.filesize) &&
      decide ((info.size : Int) < task.filesize)
  | none => false

/-- `GetTaskResumeStatus` for a present task.  `listing` is the walk of
the task's date-bucketed output directory (walk errors are modelled as
absent entries).  The output directory itself always resolves in the
model (`taskOutputDir` only fails when the home directory is
unresolvable). -/
def taskResumeStatus (fs : FS) (listing : List DirEntry) (now : Int)
    (task : Task) : String :=
  let title := trimSpace task.title
  if graceActive task now then "none"
  else if sizeSignal fs task then "ready"
  else if title = "" ∨ title = "Pending title" then "none"
  else
    let nt := normalizeForMatch title
    if nt = "" then "none"
    else
      let flags := walkFlags listing task.createdAt nt
      if flags.1 then "ready"
      else if flags.2 then "ready"
      else "none"

/-! ## Worker-side task mutations (`runTask` and friends)

Every locked mutation section of the worker keyed by task id is its own
function here; each first looks the id up and is a no-op when absent. -/

/-- First section of `runTask`: read and clear the resume flag, mark
`Running`, stage `Resolve metadata`. -/
def markRunningPhase (s : AppState) (id : String) (now : Int) : AppState :=
  match lookupTask s.tasks id with
  | none => s
  | some task =>
    let t' := { task with
      resume := false
      status := statusRunning
      stage := "Resolve metadata"
      updatedAt := now }
    { s with tasks := updateEntry s.tasks id t' }

/-- Metadata application inside `runTask` (after the synchronous fetch). -/
def applyRunMetadata (s : AppState) (id : String) (m : Task) (now : Int) :
    AppState :=
  match lookupTask s.tasks id with
  | none => s
  | some task =>
    let t' := { task with
      title := if shouldUpdateTitle task.title ∧ m.title ≠ "" then m.title else task.title
      duration := if 0 < m.duration then m.duration else task.duration
      filesize := if 0 < m.filesize then m.filesize else task.filesize
      width := if 0 < m.width then m.width else task.width
      height := if 0 < m.height then m.height else task.height
      updatedAt := now }
    { s with tasks := updateEntry s.tasks id t' }

/-- Stage-only update sections of `runTask` (`Download`, `Finalize`). -/
def setStagePhase (s : AppState) (id stage : String) (now : Int) : AppState :=
  match lookupTask s.tasks id with
  | none => s
  | some task =>
    let t' := { task with stage := stage, updatedAt := now }
    { s with tasks := updateEntry s.tasks id t' }

/-- `filepath.Base` for slash paths (enough for this model: output paths
are produced by `filepath.Join`, hence non-empty without trailing slash). -/
def pathBase (p : String) : String :=
  match (p.splitOn "/").reverse with
  | [] => "."
  | last :: _ => last

/-- `filepath.Ext`: the suffix from the final dot of the base name. -/
def pathExt (p : String) : String :=
  let base := pathBase p
  match (base.splitOn ".").reverse with
  | [] => ""
  | [_] => ""
  | last :: _ :: _ => "." ++ last

/-- Final success section of `runTask`: record the located output file,
derive a title from its name if still a placeholder, refresh size, force
progress to 100%. -/
def finalizeSuccessPhase (fs : FS) (s : AppState) (id outputPath : String)
    (now : Int) : AppState :=
  match lookupTask s.tasks id with
  | none => s
  | some task =>
    let base := pathBase outputPath
    let title' :=
      if outputPath ≠ "" ∧ shouldUpdateTitle task.title then
        match pathExt outputPath with
        | "" => base
        | ext => if ext.data.isSuffixOf base.data then
            String.mk (base.data.take (base.length - ext.length)) else base
      else task.title
    let size' :=
      if outputPath ≠ "" then
        match fs.stat outputPath with
        | some info => if info.isDir then task.filesize else (info.size : Int)
        | none => task.filesize
      else task.filesize
    let t' := { task with
      status := statusSuccess
      stage := "Finalize"
      outputPath := outputPath
      errorMessage := ""
      title := title'
      filesize := size'
      missingOutput := outputMissing fs outputPath
      progress := "100%"
      updatedAt := now }
    { s with tasks := updateEntry s.tasks id t' }

/-- `failTask`: mark `Failed` with the diagnostic message. -/
def failTask (s : AppState) (id message : String) (now : Int) : AppState :=
  match lookupTask s.tasks id with
  | none => s
  | some task =>
    let t' := { task with
      status := statusFailed
      stage := "Finalize"
      errorMessage := message
      updatedAt := now }
    { s with tasks := updateEntry s.tasks id t' }

/-- `strings.SplitN(s, "|", 3)`. -/
def splitN3Pipe (s : String) : List String :=
  match s.splitOn "|" with
  | p1 :: p2 :: p3 :: rest => [p1, p2, stringsJoin (p3 :: rest) "|"]
  | l => l

/-- `updateTaskProgress`: parse `percent|speed|eta`, skip the write when
nothing changed, otherwise store the three fields. -/
def updateTaskProgress (s : AppState) (id progress : String) (now : Int) :
    AppState :=
  let parts := splitN3Pipe progress
  let percent := trimSpace (parts.headD "")
  let speed := trimSpace ((parts.drop 1).headD "")
  let eta := trimSpace ((parts.drop 2).headD "")
  match lookupTask s.tasks id with
  | none => s
  | some task =>
    if task.progress = percent ∧ task.speed = speed ∧ task.eta = eta then s
    else
      let t' := { task with
        progress := percent
        speed := speed
        eta := eta
        updatedAt := now }
      { s with tasks := updateEntry s.tasks id t' }

/-- `prefetchTaskMetadata`'s store mutation (after a successful fetch). -/
def applyPrefetch (s : AppState) (id : String) (m : Task) (now : Int) :
    AppState :=
  match lookupTask s.tasks id with
  | none => s
  | some task =>
    let t' := { task with
      title := if shouldUpdateTitle task.title ∧ m.title ≠ "" then m.title else task.title
      updatedAt := now }
    { s with tasks := updateEntry s.tasks id t' }

/-! ## Engine failure diagnostics (`formatCommandError`) -/

/-- The `parts` list assembled by `formatCommandError`. -/
def cmdErrorParts (exitCode : Option Int) (argv : List String)
    (errText stdoutText stderrText : String) : List String :=
  let exitStr := match exitCode with
    | some c => "exit code " ++ toString c
    | none => ""
  let commandLine := stringsJoin argv " "
  let so := (trimSpace stdoutText)
  let se := (trimSpace stderrText)
  let head0 := if exitStr ≠ "" then "yt-dlp failed (" ++ exitStr ++ ")" else "yt-dlp failed"
  let parts := [head0, "Command: " ++ commandLine]
  let parts := if so ≠ "" then parts ++ ["Stdout:\n" ++ so] else parts
  let parts := if se ≠ "" then parts ++ ["Stderr:\n" ++ se] else parts
  let parts := if so = "" ∧ se = "" then parts ++ ["Error: " ++ errText] else parts
  parts

/-- `formatCommandError`: exit status when available, the full command
line (`cmd.Args` joined, the binary path included), trimmed captured
stdout and stderr, with the raw error text as fallback when both trimmed
streams are empty. -/
def formatCommandError (exitCode : Option Int) (argv : List String)
    (errText stdoutText stderrText : String) : String :=
  stringsJoin (cmdErrorParts exitCode argv errText stdoutText stderrText) "\n"

/-! ## Metadata resolution (`fetchMetadata`, `pickBestFormat`)

JSON numbers (`*float64` in the Go structs) are modelled as
`Option Int`. -/

/-- One entry of the engine's `formats` array. -/
structure YtdlpFormat where
  resolution : String
  width : Option Int
  height : Option Int
  filesize : Option Int
  filesizeApprox : Option Int
deriving DecidableEq, Repr

/-- Top-level engine metadata description. -/
structure YtdlpMetadata where
  title : String
  duration : Option Int
  extractor : String
  resolution : String
  filesize : Option Int
  filesizeApprox : Option Int
  width : Option Int
  height : Option Int
  formats : List YtdlpFormat
deriving DecidableEq, Repr

/-- The reduced per-format record built by `pickBestFormat`. -/
structure FormatInfo where
  resolution : String
  width : Int
  height : Int
  filesize : Int
deriving DecidableEq, Repr

/-- `floatToInt`: nil maps to zero. -/
def floatToInt : Option Int → Int
  | none => 0
  | some v => v

/-- `pickFilesize`: primary value, then the approximation, then zero. -/
def pickFilesize (primary fallback : Option Int) : Int :=
  match primary with
  | some v => v
  | none =>
    match fallback with
    | some v => v
    | none => 0

/-- `parseResolution`: `WIDTHxHEIGHT`, both parts `strconv.Atoi`-parsed. -/
def parseResolution (value : String) : Int × Int :=
  match (String.mk ((trimSpace value).data.map Char.toLower)).splitOn "x" with
  | [w, h] =>
    match (trimSpace w).toInt?, (trimSpace h).toInt? with
    | some wi, some hi => (wi, hi)
    | _, _ => (0, 0)
  | _ => (0, 0)

/-- The resolved fields of one format variant. -/
def formatInfoOf (format : YtdlpFormat) : FormatInfo :=
  let filesize := pickFilesize format.filesize format.filesizeApprox
  let width := floatToInt format.width
  let height := floatToInt format.height
  let resolution := trimSpace format.resolution
  let wh := if width = 0 ∧ height = 0 ∧ resolution ≠ "" then
      parseResolution resolution else (width, height)
  { resolution := resolution
    width := wh.1
    height := wh.2
    filesize := filesize }

/-- The score `pickBestFormat` ranks a variant by: its filesize, or its
width×height product when the filesize is zero. -/
def formatScore (format : YtdlpFormat) : Int :=
  let info := formatInfoOf format
  if info.filesize = 0 then info.width * info.height else info.filesize

/-- One step of the `pickBestFormat` loop: keep the candidate whose score
strictly exceeds the best score so far. -/
def pickStep (acc : FormatInfo × Int) (format : YtdlpFormat) :
    FormatInfo × Int :=
  let score := formatScore format
  if acc.2 < score then (formatInfoOf format, score) else acc

/-- `pickBestFormat`: single pass keeping the first variant whose score
strictly exceeds every earlier score. -/
def pickBestFormat (formats : List YtdlpFormat) : FormatInfo :=
  (formats.foldl pickStep
    ({ resolution := "", width := 0, height := 0, filesize := 0 }, 0)).1

/-- The pure tail of `fetchMetadata`: resolve width/height and filesize
from the parsed description, falling back to the best format variant. -/
def metadataFromInfo (info : YtdlpMetadata) (sourceURL : String)
    (hostOf : String → String) : Task :=
  let best := pickBestFormat info.formats
  let width := floatToInt info.width
  let height := floatToInt info.height
  let wh :=
    if width = 0 ∧ height = 0 ∧ info.resolution ≠ "" then
      parseResolution info.resolution
    else (width, height)
  let wh2 := if wh.1 = 0 ∧ wh.2 = 0 then (best.width, best.height) else wh
  let filesize0 := pickFilesize info.filesize info.filesizeApprox
  let filesize := if filesize0 = 0 then best.filesize else filesize0
  let source := if trimSpace info.extractor = "" then hostOf sourceURL else trimSpace info.extractor
  { id := ""
    url := ""
    title := trimSpace info.title
    sourceHost := source
    status := ""
    stage := ""
    progress := ""
    speed := ""
    eta := ""
    outputPath := ""
    missingOutput := false
    errorMessage := ""
    resume := false
    duration := floatToInt info.duration
    filesize := filesize
    width := wh2.1
    height := wh2.2
    createdAt := 0
    updatedAt := 0 }

/-- `ForceResumeTask`: same reset without the active-run guard. -/
def forceResumeTask (s : AppState) (id : String) (now : Int) :
    AppState × Option String :=
  match lookupTask s.tasks id with
  | none => (s, some "task not found")
  | some task =>
    let t' := { task with
      status := statusQueued
      stage := "Force Resume"
      progress := ""
      errorMessage := ""
      resume := true
      updatedAt := now }
    ({ s with tasks := updateEntry s.tasks id t', queue := s.queue ++ [id] }, none)

/-! ## Store-level state machine and its invariant (for the global
claims about `order` and the task map) -/

/-- `ExportTasks` modulo JSON encoding: the ordered snapshot. -/
def exportTasks (s : AppState) : List Task :=
  listTasks s

/-- The keys of the task map. -/
def keysOf (ts : List (String × Task)) : List String :=
  ts.map Prod.fst

/-- Store well-formedness: `order` lists exactly the live ids, without
duplicates; map keys are unique; every stored task's `id` field equals
its key. -/
def WF (s : AppState) : Prop :=
  s.order.Nodup ∧
  (∀ id, id ∈ s.order ↔ (lookupTask s.tasks id).isSome) ∧
  (keysOf s.tasks).Nodup ∧
  (∀ p ∈ s.tasks, p.2.id = p.1)

/-- One store operation, oracles included. -/
inductive StoreOp where
  | createOp (env : Env) (text : String) (ids : List String) (now : Int)
  | deleteOp (fs : FS) (trashOk : Bool) (id : String)
  | importOp (fs : FS) (items : List Task) (mode : String) (overwriteDownloaded : Bool)
  | loadOp (items : List Task)

/-- The state after an operation (failed operations keep the state). -/
def applyOp (s : AppState) : StoreOp → AppState
  | .createOp env text ids now => (createTasksFromText env s text ids now).2
  | .deleteOp fs trashOk id => (deleteTask fs trashOk s id).1
  | .importOp fs items mode ow => (importTasks fs s items mode ow).1
  | .loadOp items => loadTasks s items

/-- Input hygiene per operation: freshly generated ids are distinct and
unused (modelling `newID`'s randomness); import and load payloads carry
pairwise-distinct ids; a load payload (startup restore) is disjoint from
the store. -/
def opOK (s : AppState) : StoreOp → Prop
  | .createOp _ _ ids _ => ids.Nodup ∧ ∀ i ∈ ids, lookupTask s.tasks i = none
  | .deleteOp _ _ _ => True
  | .importOp _ items _ _ => (items.map (fun t => t.id)).Nodup
  | .loadOp items => (items.map (fun t => t.id)).Nodup ∧
      ∀ t ∈ items, lookupTask s.tasks t.id = none

/-- How `order` evolves under one operation ("first-seen order"): ids are
only appended when first inserted, deletion filters, replace rebuilds in
payload order. -/
def orderEvolved (s : AppState) : StoreOp → Prop
  | .createOp env text ids now =>
    (applyOp s (.createOp env text ids now)).order =
      s.order ++ ((extractURLs text).zip ids).map (fun p => p.2)
  | .deleteOp fs trashOk id =>
    (applyOp s (.deleteOp fs trashOk id)).order = s.order.filter (fun e => e ≠ id) ∨
      (applyOp s (.deleteOp fs trashOk id)).order = s.order
  | .importOp fs items mode ow =>
    (mode = "merge" →
      (applyOp s (.importOp fs items mode ow)).order = s.order ++
        ((items.map (procRecord fs ow)).filter
          (fun t => (lookupTask s.tasks t.id).isNone)).map (fun t => t.id) ∨
      (applyOp s (.importOp fs items mode ow)).order = s.order) ∧
    (mode = "replace" →
      (applyOp s (.importOp fs items mode ow)).order =
        (items.map (procRecord fs ow)).map (fun t => t.id) ∨
      (applyOp s (.importOp fs items mode ow)).order = s.order) ∧
    (mode ≠ "merge" → mode ≠ "replace" →
      (applyOp s (.importOp fs items mode ow)).order = s.order)
  | .loadOp items =>
    (applyOp s (.loadOp items)).order = s.order ++ items.map (fun t => t.id)

/-- All-blank task value, used to instantiate concrete scenarios. -/
def emptyTask : Task :=
  { id := ""
    url := ""
    title := ""
    sourceHost := ""
    status := ""
    stage := ""
    progress := ""
    speed := ""
    eta := ""
    outputPath := ""
    missingOutput := false
    errorMessage := ""
    resume := false
    duration := 0
    filesize := 0
    width := 0
    height := 0
    createdAt := 0
    updatedAt := 0 }

/-- Filesystem oracle on which every `stat` fails. -/
def fsEmpty : FS := ⟨fun _ => none⟩

/-- Fixture: a format variant reporting a (small) filesize. -/
def fmtSized : YtdlpFormat :=
  { resolution := "", width := none, height := none, filesize := some 100,
    filesizeApprox := none }

/-- Fixture: a format variant reporting no filesize but a large frame. -/
def fmtLarge : YtdlpFormat :=
  { resolution := "", width := some 1000, height := some 1000, filesize := none,
    filesizeApprox := none }

/-- Fixture: an engine description with no top-level dimensions and the
two fixture variants. -/
def metaInfoTwo : YtdlpMetadata :=
  { title := "", duration := none, extractor := "", resolution := "",
    filesize := none, filesizeApprox := none, width := none, height := none,
    formats := [fmtSized, fmtLarge] }

/-- Fixture: an imported record marked `Success` whose output file is
gone. -/
def xgone : Task :=
  { emptyTask with id := "x", status := statusSuccess, outputPath := "/gone" }

/-- Fixture: `xgone` after the overwrite-downloaded reset. -/
def xgoneReset : Task :=
  { xgone with
    status := statusQueued
    progress := ""
    outputPath := ""
    missingOutput := false
    errorMessage := "" }

/-- Fixture: a one-task store whose task's output file is gone while its
stored `missingOutput` still says the file is present. -/
def stateGone : AppState :=
  ⟨[("x", xgone)], ["x"], []⟩

/-- Fixture: a filesystem oracle on which only `/gone` exists (a regular
file of size 5). -/
def fsGone : FS :=
  ⟨fun p => if p = "/gone" then some ⟨false, 5, 0⟩ else none⟩

/-- Fixture: a stored task with id `x` last updated at time 10. -/
def taskX10 : Task :=
  { emptyTask with id := "x", updatedAt := 10 }

/-- Fixture: an incoming record with id `x` updated at the older time 5. -/
def itemX5 : Task :=
  { emptyTask with id := "x", updatedAt := 5 }

/-- Fixture: a one-task store holding `taskX10`. -/
def stateX10 : AppState :=
  ⟨[("x", taskX10)], ["x"], []⟩

/-- Fixture: a task with a non-placeholder title whose normalization is
empty. -/
def taskBang : Task :=
  { emptyTask with title := "!!!", createdAt := 1000 }

/-- Fixture: a task with an ordinary title. -/
def taskReal : Task :=
  { emptyTask with title := "realtitle", createdAt := 1000 }

/-- Fixture: an actively running task. -/
def taskClip : Task :=
  { emptyTask with title := "clip", status := statusRunning, updatedAt := 100, createdAt := 50 }

/-! ## Association-list lemmas (the task map) -/

theorem lookupTask_append (ts ts' : List (String × Task)) (id : String) :
    lookupTask (ts ++ ts') id =
      match lookupTask ts id with
      | some t => some t
      | none => lookupTask ts' id := by
  induction ts with
  | nil => rfl
  | cons p rest ih =>
    obtain ⟨k, v⟩ := p
    simp only [List.cons_append, lookupTask]
    split <;> simp [ih]

theorem lookupTask_eq_none_iff (ts : List (String × Task)) (id : String) :
    lookupTask ts id = none ↔ ∀ p ∈ ts, p.1 ≠ id := by
  induction ts with
  | nil => simp [lookupTask]
  | cons p rest ih =>
    obtain ⟨k, v⟩ := p
    simp only [lookupTask, List.mem_cons]
    by_cases hk : k = id
    · rw [if_pos hk]
      constructor
      · intro h; cases h
      · intro h; exact absurd hk (h (k, v) (Or.inl rfl))
    · rw [if_neg hk, ih]
      constructor
      · intro h q hq
        rcases hq with hq | hq
        · cases hq; exact hk
        · exact h q hq
      · intro h q hq
        exact h q (Or.inr hq)

theorem lookupTask_mem {ts : List (String × Task)} {id : String} {t : Task} :
    lookupTask ts id = some t → (id, t) ∈ ts := by
  induction ts with
  | nil => intro h; simp [lookupTask] at h
  | cons p rest ih =>
    obtain ⟨k, v⟩ := p
    intro h
    simp only [lookupTask] at h
    by_cases hk : k = id
    · rw [if_pos hk] at h
      obtain rfl : v = t := by cases h; rfl
      subst hk
      exact List.mem_cons_self _ _
    · rw [if_neg hk] at h
      exact List.mem_cons_of_mem _ (ih h)

theorem lookupTask_updateEntry_self (ts : List (String × Task)) (id : String)
    (t t' : Task) (h : lookupTask ts id = some t) :
    lookupTask (updateEntry ts id t') id = some t' := by
  induction ts with
  | nil => simp [lookupTask] at h
  | cons p rest ih =>
    obtain ⟨k, v⟩ := p
    simp only [lookupTask] at h
    simp only [updateEntry, List.map_cons]
    by_cases hk : k = id
    · rw [if_pos hk]
      simp only [lookupTask]
      rw [if_pos hk]
    · rw [if_neg hk] at h ⊢
      simp only [lookupTask]
      rw [if_neg hk]
      exact ih h

theorem updateEntry_of_none (ts : List (String × Task)) (id : String)
    (t' : Task) (h : lookupTask ts id = none) : updateEntry ts id t' = ts := by
  induction ts with
  | nil => rfl
  | cons p rest ih =>
    obtain ⟨k, v⟩ := p
    simp only [lookupTask] at h
    by_cases hk : k = id
    · rw [if_pos hk] at h; cases h
    · rw [if_neg hk] at h
      simp only [updateEntry, List.map_cons, if_neg hk]
      rw [show List.map (fun p => if p.1 = id then (p.1, t') else p) rest =
        updateEntry rest id t' from rfl, ih h]

theorem lookupTask_updateEntry_ne (ts : List (String × Task)) {id id' : String}
    (t' : Task) (h : id' ≠ id) :
    lookupTask (updateEntry ts id t') id' = lookupTask ts id' := by
  induction ts with
  | nil => rfl
  | cons p rest ih =>
    obtain ⟨k, v⟩ := p
    simp only [updateEntry, List.map_cons]
    by_cases hk : k = id
    · rw [if_pos hk]
      simp only [lookupTask]
      have hki : ¬ k = id' := fun hc => h (hc ▸ hk)
      rw [if_neg hki, if_neg hki]
      exact ih
    · rw [if_neg hk]
      simp only [lookupTask]
      by_cases hki : k = id'
      · rw [if_pos hki, if_pos hki]
      · rw [if_neg hki, if_neg hki]
        exact ih

theorem keysOf_updateEntry (ts : List (String × Task)) (id : String) (t : Task) :
    keysOf (updateEntry ts id t) = keysOf ts := by
  induction ts with
  | nil => rfl
  | cons p rest ih =>
    obtain ⟨k, v⟩ := p
    simp only [updateEntry, keysOf, List.map_cons] at ih ⊢
    by_cases hk : k = id
    · rw [if_pos hk]
      simpa using ih
    · rw [if_neg hk]
      simpa using ih

theorem keysOf_append (ts ts' : List (String × Task)) :
    keysOf (ts ++ ts') = keysOf ts ++ keysOf ts' := by
  simp [keysOf]

theorem lookupTask_isSome_iff (ts : List (String × Task)) (id : String) :
    (lookupTask ts id).isSome ↔ id ∈ keysOf ts := by
  induction ts with
  | nil => simp [lookupTask, keysOf]
  | cons p rest ih =>
    obtain ⟨k, v⟩ := p
    simp only [lookupTask, keysOf, List.map_cons, List.mem_cons]
    by_cases hk : k = id
    · rw [if_pos hk]
      simp [hk]
    · rw [if_neg hk]
      simp only [keysOf] at ih
      rw [ih]
      have : ¬ id = k := fun hc => hk hc.symm
      simp [this]

theorem lookupTask_removeTask_self (ts : List (String × Task)) (id : String) :
    lookupTask (removeTask ts id) id = none := by
  rw [lookupTask_eq_none_iff]
  intro p hp
  have := List.of_mem_filter hp
  simpa using this

theorem lookupTask_removeTask_ne (ts : List (String × Task)) {id id' : String}
    (h : id' ≠ id) : lookupTask (removeTask ts id) id' = lookupTask ts id' := by
  induction ts with
  | nil => rfl
  | cons p rest ih =>
    obtain ⟨k, v⟩ := p
    simp only [removeTask] at ih ⊢
    simp only [ne_eq, decide_not] at ih
    have hii : ¬ id = id' := fun hc => h hc.symm
    by_cases hk : k = id
    · have hki : ¬ k = id' := fun hc => h (hc ▸ hk)
      simp [List.filter_cons, lookupTask, hk, hki, hii, h, ih]
    · by_cases hki : k = id'
      · simp [List.filter_cons, lookupTask, hk, hki, hii, h, ih]
      · simp [List.filter_cons, lookupTask, hk, hki, hii, h, ih]

theorem keysOf_removeTask (ts : List (String × Task)) (id : String) :
    keysOf (removeTask ts id) = (keysOf ts).filter (fun k => k ≠ id) := by
  induction ts with
  | nil => rfl
  | cons p rest ih =>
    obtain ⟨k, v⟩ := p
    simp only [removeTask, keysOf] at ih ⊢
    simp only [ne_eq, decide_not] at ih
    by_cases hk : k = id <;> simp [List.filter_cons, hk, ih]

theorem setTask_fresh (ts : List (String × Task)) (id : String) (t : Task)
    (h : lookupTask ts id = none) : setTask ts id t = ts ++ [(id, t)] := by
  simp [setTask, h]

/-! ## URL extraction lemmas (claim C1) -/

theorem mem_dedupKeepFirst (a : String) (l : List String) :
    a ∈ dedupKeepFirst l ↔ a ∈ l := by
  induction l using dedupKeepFirst.induct with
  | case1 => simp [dedupKeepFirst]
  | case2 x xs ih =>
    rw [dedupKeepFirst]
    simp only [List.mem_cons, ih, List.mem_filter]
    by_cases ha : a = x <;> simp [ha]

theorem nodup_dedupKeepFirst (l : List String) : (dedupKeepFirst l).Nodup := by
  induction l using dedupKeepFirst.induct with
  | case1 => simp [dedupKeepFirst]
  | case2 x xs ih =>
    rw [dedupKeepFirst]
    refine List.nodup_cons.mpr ⟨?_, ih⟩
    intro hmem
    rw [mem_dedupKeepFirst] at hmem
    have := (List.mem_filter.mp hmem).2
    simp at this

theorem dedupSeen_eq (l : List String) :
    ∀ seen, dedupSeen l seen =
      dedupKeepFirst (l.filter (fun y => decide (y ∉ seen))) := by
  induction l with
  | nil => intro seen; simp [dedupSeen, dedupKeepFirst]
  | cons x xs ih =>
    intro seen
    by_cases hx : x ∈ seen
    · rw [show dedupSeen (x :: xs) seen = dedupSeen xs seen by
        simp [dedupSeen, hx]]
      rw [ih seen]
      congr 1
      simp [List.filter_cons, hx]
    · rw [show dedupSeen (x :: xs) seen = x :: dedupSeen xs (x :: seen) by
        simp [dedupSeen, hx]]
      rw [ih (x :: seen)]
      rw [show (x :: xs).filter (fun y => decide (y ∉ seen)) =
        x :: xs.filter (fun y => decide (y ∉ seen)) by
          simp [List.filter_cons, hx]]
      rw [dedupKeepFirst]
      congr 1
      rw [List.filter_filter]
      congr 1
      apply List.filter_congr
      intro y _
      by_cases h1 : y = x <;> by_cases h2 : y ∈ seen <;> simp [h1, h2]

theorem extractURLs_eq (text : String) :
    extractURLs text = dedupKeepFirst (scanURLs text.data) := by
  rw [extractURLs, dedupSeen_eq]
  congr 1
  simp

/-- C1: for every input text, `CreateTasksFromText` creates exactly one
task per distinct `http`/`https` locator substring occurring in the text
(the regexp matches), in order of first appearance, each exactly once
regardless of repetition, and creates none when the text contains no such
locator. -/
theorem createTasksFromText_distinct_locators (env : Env) (s : AppState)
    (text : String) (ids : List String) (now : Int)
    (h : ids.length = (extractURLs text).length) :
    ((createTasksFromText env s text ids now).1.map (fun t => t.url)
        = extractURLs text)
    ∧ extractURLs text = dedupKeepFirst (scanURLs text.data)
    ∧ (extractURLs text).Nodup
    ∧ (∀ u, u ∈ extractURLs text ↔ u ∈ scanURLs text.data)
    ∧ (scanURLs text.data = [] → (createTasksFromText env s text ids now).1 = []) := by
  have heq := extractURLs_eq text
  refine ⟨?_, heq, ?_, ?_, ?_⟩
  · rw [createTasksFromText]
    by_cases hurls : extractURLs text = []
    · simp [hurls]
    · rw [if_neg hurls]
      simp only [List.map_map]
      have : ((extractURLs text).zip ids).map ((fun t => t.url) ∘ fun p => newTaskFor env p.2 p.1 now)
          = ((extractURLs text).zip ids).map Prod.fst := by
        apply List.map_congr_left
        intro p _
        rfl
      rw [this]
      exact List.map_fst_zip _ _ (le_of_eq h.symm)
  · rw [heq]; exact nodup_dedupKeepFirst _
  · intro u
    rw [heq]
    exact mem_dedupKeepFirst u _
  · intro hempty
    have : extractURLs text = [] := by rw [heq, hempty]; simp [dedupKeepFirst]
    simp [createTasksFromText, this]

/-- Witness for C1 on the spec's duplicate-locator scenario. -/
theorem createTasksFromText_distinct_locators_witness :
    (["task-id-1"].length =
      (extractURLs "grab this https://example.com/a and also https://example.com/a again").length)
    ∧ ((createTasksFromText ⟨fun _ => "t", fun _ => "h"⟩ ⟨[], [], []⟩
          "grab this https://example.com/a and also https://example.com/a again"
          ["task-id-1"] 5).1.map (fun t => t.url)
        = extractURLs "grab this https://example.com/a and also https://example.com/a again") :=
  ⟨by decide,
    (createTasksFromText_distinct_locators ⟨fun _ => "t", fun _ => "h"⟩ ⟨[], [], []⟩
      "grab this https://example.com/a and also https://example.com/a again"
      ["task-id-1"] 5 (by decide)).1⟩

/-! ## Worker no-ops on deleted tasks (claim C10) -/

/-- C10: every worker-side mutation keyed by task id first looks the id
up and leaves the state untouched when the id is absent, so a task
deleted while a run or prefetch is in flight is never re-inserted. -/
theorem worker_mutations_noop_when_absent (s : AppState) (id : String)
    (now : Int) (m : Task) (msg stage outputPath : String) (fs : FS)
    (h : lookupTask s.tasks id = none) :
    markRunningPhase s id now = s
    ∧ applyRunMetadata s id m now = s
    ∧ setStagePhase s id stage now = s
    ∧ finalizeSuccessPhase fs s id outputPath now = s
    ∧ failTask s id msg now = s
    ∧ updateTaskProgress s id msg now = s
    ∧ applyPrefetch s id m now = s := by
  refine ⟨?_, ?_, ?_, ?_, ?_, ?_, ?_⟩ <;>
    simp [markRunningPhase, applyRunMetadata, setStagePhase,
      finalizeSuccessPhase, failTask, updateTaskProgress, applyPrefetch, h]

/-- Witness for C10 at the empty store. -/
theorem worker_mutations_noop_when_absent_witness :
    lookupTask (AppState.mk [] [] []).tasks "ghost" = none
    ∧ failTask ⟨[], [], []⟩ "ghost" "boom" 7 = (⟨[], [], []⟩ : AppState) :=
  ⟨rfl, (worker_mutations_noop_when_absent ⟨[], [], []⟩ "ghost" 7 emptyTask
    "boom" "Download" "/out" fsEmpty rfl).2.2.2.2.1⟩

/-! ## Resume guard and reset (claim C6) -/

/-- C6: a task `Running` within the 30-second grace window is rejected by
`ResumeTask` with the already-running error and the state is unchanged,
while `ForceResumeTask` succeeds; every successful resume (guarded once
past the window, or forced) resets the task to `Queued`, clears progress
and error, sets the transient resume flag and re-enqueues the id. -/
theorem resume_guard_and_reset (s : AppState) (id : String) (now : Int)
    (task : Task) (h : lookupTask s.tasks id = some task) :
    (task.status = statusRunning → now - task.updatedAt < 30 →
      resumeTask s id now = (s, some "task is already running"))
    ∧ (¬(task.status = statusRunning ∧ now - task.updatedAt < 30) →
        (resumeTask s id now).2 = none
        ∧ lookupTask (resumeTask s id now).1.tasks id =
            some { task with
              status := statusQueued
              stage := "Resume"
              progress := ""
              errorMessage := ""
              resume := true
              updatedAt := now }
        ∧ (resumeTask s id now).1.queue = s.queue ++ [id])
    ∧ ((forceResumeTask s id now).2 = none
        ∧ lookupTask (forceResumeTask s id now).1.tasks id =
            some { task with
              status := statusQueued
              stage := "Force Resume"
              progress := ""
              errorMessage := ""
              resume := true
              updatedAt := now }
        ∧ (forceResumeTask s id now).1.queue = s.queue ++ [id]) := by
  refine ⟨?_, ?_, ?_⟩
  · intro h1 h2
    simp [resumeTask, h, h1, h2]
  · intro hguard
    rw [show resumeTask s id now =
      ({ s with
          tasks := updateEntry s.tasks id { task with
            status := statusQueued
            stage := "Resume"
            progress := ""
            errorMessage := ""
            resume := true
            updatedAt := now }
          queue := s.queue ++ [id] }, none) by
        simp [resumeTask, h, hguard]]
    exact ⟨rfl, lookupTask_updateEntry_self _ _ _ _ h, rfl⟩
  · rw [show forceResumeTask s id now =
      ({ s with
          tasks := updateEntry s.tasks id { task with
            status := statusQueued
            stage := "Force Resume"
            progress := ""
            errorMessage := ""
            resume := true
            updatedAt := now }
          queue := s.queue ++ [id] }, none) by
        simp [forceResumeTask, h]]
    exact ⟨rfl, lookupTask_updateEntry_self _ _ _ _ h, rfl⟩

/-- Witness for C6: a task running moments ago is rejected by the guarded
resume and reset by the forced one. -/
theorem resume_guard_and_reset_witness :
    lookupTask [("x", { emptyTask with id := "x", status := statusRunning, updatedAt := 100 })] "x"
      = some { emptyTask with id := "x", status := statusRunning, updatedAt := 100 }
    ∧ resumeTask ⟨[("x", { emptyTask with id := "x", status := statusRunning, updatedAt := 100 })], ["x"], []⟩
        "x" 110
      = (⟨[("x", { emptyTask with id := "x", status := statusRunning, updatedAt := 100 })], ["x"], []⟩,
          some "task is already running") :=
  ⟨by decide,
    (resume_guard_and_reset
      ⟨[("x", { emptyTask with id := "x", status := statusRunning, updatedAt := 100 })], ["x"], []⟩
      "x" 110 { emptyTask with id := "x", status := statusRunning, updatedAt := 100 }
      (by decide)).1 (by decide) (by decide)⟩

/-! ## Failure diagnostics (claim C7) -/

theorem data_append (a b : String) : (a ++ b).data = a.data ++ b.data := rfl

theorem infix_stringsJoin {x : String} {parts : List String} (sep : String)
    (h : x ∈ parts) : x.data <:+: (stringsJoin parts sep).data := by
  induction parts with
  | nil => cases h
  | cons y ys ih =>
    cases ys with
    | nil =>
      rcases List.mem_cons.mp h with rfl | h
      · exact List.infix_refl _
      · cases h
    | cons z zs =>
      rcases List.mem_cons.mp h with rfl | h
      · rw [show stringsJoin (x :: z :: zs) sep = x ++ sep ++ stringsJoin (z :: zs) sep
          from rfl, data_append, data_append]
        exact ((List.prefix_append x.data _).trans
          (by rw [List.append_assoc])).isInfix
      · rw [show stringsJoin (y :: z :: zs) sep = y ++ sep ++ stringsJoin (z :: zs) sep
          from rfl, data_append]
        exact (ih h).trans (List.suffix_append _ _).isInfix

theorem suffix_data_append (a b : String) : a.data <:+ (b ++ a).data := by
  rw [data_append]
  exact List.suffix_append _ _

theorem append_ne_empty_left (a b : String) (h : a.data ≠ []) : a ++ b ≠ "" := by
  intro hcon
  have : (a ++ b).data = [] := by simp [hcon]
  rw [data_append] at this
  exact h (List.append_eq_nil.mp this).1

theorem mem_cmdErrorParts_command (exitCode : Option Int) (argv : List String)
    (errText stdoutText stderrText : String) :
    ("Command: " ++ stringsJoin argv " ") ∈
      cmdErrorParts exitCode argv errText stdoutText stderrText := by
  unfold cmdErrorParts
  by_cases h1 : (trimSpace stdoutText) = "" <;> by_cases h2 : (trimSpace stderrText) = "" <;>
    simp [h1, h2]

theorem mem_cmdErrorParts_stdout (exitCode : Option Int) (argv : List String)
    (errText stdoutText stderrText : String) (h : (trimSpace stdoutText) ≠ "") :
    ("Stdout:\n" ++ (trimSpace stdoutText)) ∈
      cmdErrorParts exitCode argv errText stdoutText stderrText := by
  unfold cmdErrorParts
  by_cases h2 : (trimSpace stderrText) = "" <;> simp [h, h2]

theorem mem_cmdErrorParts_stderr (exitCode : Option Int) (argv : List String)
    (errText stdoutText stderrText : String) (h : (trimSpace stderrText) ≠ "") :
    ("Stderr:\n" ++ (trimSpace stderrText)) ∈
      cmdErrorParts exitCode argv errText stdoutText stderrText := by
  unfold cmdErrorParts
  by_cases h1 : (trimSpace stdoutText) = "" <;> simp [h, h1]

theorem mem_cmdErrorParts_fallback (exitCode : Option Int) (argv : List String)
    (errText stdoutText stderrText : String) (h1 : (trimSpace stdoutText) = "")
    (h2 : (trimSpace stderrText) = "") :
    ("Error: " ++ errText) ∈
      cmdErrorParts exitCode argv errText stdoutText stderrText := by
  unfold cmdErrorParts
  simp [h1, h2]

theorem mem_cmdErrorParts_exit (c : Int) (argv : List String)
    (errText stdoutText stderrText : String) :
    ("yt-dlp failed (" ++ ("exit code " ++ toString c) ++ ")") ∈
      cmdErrorParts (some c) argv errText stdoutText stderrText := by
  have hne : ("exit code " ++ toString c) ≠ "" :=
    append_ne_empty_left _ _ (by decide)
  unfold cmdErrorParts
  by_cases h1 : (trimSpace stdoutText) = "" <;> by_cases h2 : (trimSpace stderrText) = "" <;>
    simp [h1, h2, hne]

/-- C7: on an engine failure the task is marked `Failed` and its
diagnostic message contains the exit status when available, the full
invoked command line, the trimmed captured stdout and stderr, and falls
back to the raw error text when both trimmed captures are empty. -/
theorem failed_run_diagnostics (s : AppState) (id : String) (now : Int)
    (exitCode : Option Int) (argv : List String)
    (errText stdoutText stderrText : String) (task : Task)
    (h : lookupTask s.tasks id = some task) :
    (lookupTask (failTask s id
          (formatCommandError exitCode argv errText stdoutText stderrText) now).tasks id =
        some { task with
          status := statusFailed
          stage := "Finalize"
          errorMessage := formatCommandError exitCode argv errText stdoutText stderrText
          updatedAt := now })
    ∧ (stringsJoin argv " ").data <:+:
        (formatCommandError exitCode argv errText stdoutText stderrText).data
    ∧ (trimSpace stdoutText).data <:+:
        (formatCommandError exitCode argv errText stdoutText stderrText).data
    ∧ (trimSpace stderrText).data <:+:
        (formatCommandError exitCode argv errText stdoutText stderrText).data
    ∧ (∀ c, exitCode = some c →
        ("exit code " ++ toString c).data <:+:
          (formatCommandError exitCode argv errText stdoutText stderrText).data)
    ∧ ((trimSpace stdoutText) = "" → (trimSpace stderrText) = "" →
        ("Error: " ++ errText).data <:+:
          (formatCommandError exitCode argv errText stdoutText stderrText).data) := by
  refine ⟨?_, ?_, ?_, ?_, ?_, ?_⟩
  · have := lookupTask_updateEntry_self s.tasks id task
      { task with
        status := statusFailed
        stage := "Finalize"
        errorMessage := formatCommandError exitCode argv errText stdoutText stderrText
        updatedAt := now } h
    simpa [failTask, h] using this
  · exact (suffix_data_append _ "Command: ").isInfix.trans
      (infix_stringsJoin "\n" (mem_cmdErrorParts_command exitCode argv _ _ _))
  · by_cases hso : (trimSpace stdoutText) = ""
    · simp [hso]
    · exact (suffix_data_append _ "Stdout:\n").isInfix.trans
        (infix_stringsJoin "\n" (mem_cmdErrorParts_stdout exitCode argv _ _ _ hso))
  · by_cases hse : (trimSpace stderrText) = ""
    · simp [hse]
    · exact (suffix_data_append _ "Stderr:\n").isInfix.trans
        (infix_stringsJoin "\n" (mem_cmdErrorParts_stderr exitCode argv _ _ _ hse))
  · rintro c rfl
    refine List.IsInfix.trans ?_
      (infix_stringsJoin "\n" (mem_cmdErrorParts_exit c argv errText stdoutText stderrText))
    rw [data_append, data_append]
    exact ⟨"yt-dlp failed (".data, ")".data, by simp⟩
  · intro hso hse
    exact infix_stringsJoin "\n"
      (mem_cmdErrorParts_fallback exitCode argv errText _ _ hso hse)

/-- Witness for C7: the spec scenario of a non-zero exit with stderr
`403 Forbidden`; the diagnostic contains the command line and the stderr
text, and the task is `Failed`. -/
theorem failed_run_diagnostics_witness :
    (lookupTask [("x", { emptyTask with id := "x" })] "x" = some { emptyTask with id := "x" })
    ∧ ((trimSpace "403 Forbidden").data <:+:
        (formatCommandError (some 1) ["yt-dlp", "--newline", "https://example.com/a"]
          "exit status 1" "" "403 Forbidden").data) :=
  ⟨by decide,
    (failed_run_diagnostics ⟨[("x", { emptyTask with id := "x" })], ["x"], []⟩ "x" 9
      (some 1) ["yt-dlp", "--newline", "https://example.com/a"]
      "exit status 1" "" "403 Forbidden" { emptyTask with id := "x" } (by decide)).2.2.2.1⟩

/-! ## Resume heuristic lemmas (claim C5) -/

/-- The name-match predicate of the walk. -/
def entryNameMatch (nt : String) (e : DirEntry) : Bool :=
  !e.isDir && isPartialFile e.name &&
    decide (nt.data <:+: (normalizeForMatch e.name).data)

/-- The claim-side "ready" predicate of the walk: name match, or a
partial file touched after `createdAt - 1min`. -/
def entryReady (createdAt : Int) (nt : String) (e : DirEntry) : Bool :=
  !e.isDir && isPartialFile e.name &&
    (decide (nt.data <:+: (normalizeForMatch e.name).data) ||
      decide (createdAt - 60 < e.modTime))

theorem foldl_walkStep_found (createdAt : Int) (nt : String) :
    ∀ (listing : List DirEntry) (acc : Bool × Bool),
      (listing.foldl (walkStep createdAt nt) acc).1 =
        (acc.1 || listing.any (entryNameMatch nt)) := by
  intro listing
  induction listing with
  | nil => intro acc; simp
  | cons e es ih =>
    intro acc
    obtain ⟨f, r⟩ := acc
    rw [List.foldl_cons, ih]
    cases f
    · cases hdir : e.isDir
      · cases hpart : isPartialFile e.name
        · simp [walkStep, hdir, hpart, entryNameMatch]
        · simp [walkStep, hdir, hpart, entryNameMatch]
      · simp [walkStep, hdir, entryNameMatch]
    · simp [walkStep, entryNameMatch]

theorem foldl_walkStep_ready (createdAt : Int) (nt : String) :
    ∀ (listing : List DirEntry) (acc : Bool × Bool),
      ((listing.foldl (walkStep createdAt nt) acc).1 ||
        (listing.foldl (walkStep createdAt nt) acc).2) =
        (acc.1 || acc.2 || listing.any (entryReady createdAt nt)) := by
  intro listing
  induction listing with
  | nil => intro acc; simp
  | cons e es ih =>
    intro acc
    obtain ⟨f, r⟩ := acc
    rw [List.foldl_cons, ih]
    cases f
    · cases hdir : e.isDir
      · cases hpart : isPartialFile e.name
        · simp [walkStep, hdir, hpart, entryReady]
        · simp only [walkStep, Bool.false_or, hdir, hpart, Bool.not_true,
            if_false, if_true, List.any_cons]
          simp [entryReady, hdir, hpart]
          cases hm : decide (nt.data <:+: (normalizeForMatch e.name).data) <;>
            cases hr : decide (createdAt - 60 < e.modTime) <;>
            cases r <;> simp
      · simp [walkStep, hdir, entryReady]
    · simp [walkStep, entryReady]

/-- C5 (amended): `GetTaskResumeStatus` returns `none` whenever the task
is `Running` with `updatedAt` within the last 30 seconds, regardless of
artifacts; otherwise `ready` whenever the recorded filesize exceeds the
current size of `outputPath` as a regular file; otherwise, provided the
trimmed title is neither empty nor the placeholder **and normalizes to a
non-empty string**, `ready` when some partial-marker file's normalized
name contains the normalized title or — failing a name match — when some
partial-marker file was modified **strictly later** than one minute
before the task's creation time; and `none` in every other case. -/
theorem resume_status_cases (fs : FS) (listing : List DirEntry) (now : Int)
    (task : Task) :
    (graceActive task now = true → taskResumeStatus fs listing now task = "none")
    ∧ (graceActive task now = false → sizeSignal fs task = true →
        taskResumeStatus fs listing now task = "ready")
    ∧ (graceActive task now = false → sizeSignal fs task = false →
        trimSpace task.title ≠ "" → trimSpace task.title ≠ "Pending title" →
        normalizeForMatch (trimSpace task.title) ≠ "" →
        listing.any (entryNameMatch (normalizeForMatch (trimSpace task.title))) = true →
        taskResumeStatus fs listing now task = "ready")
    ∧ (graceActive task now = false → sizeSignal fs task = false →
        trimSpace task.title ≠ "" → trimSpace task.title ≠ "Pending title" →
        normalizeForMatch (trimSpace task.title) ≠ "" →
        listing.any (entryReady task.createdAt (normalizeForMatch (trimSpace task.title))) = true →
        taskResumeStatus fs listing now task = "ready")
    ∧ (graceActive task now = false → sizeSignal fs task = false →
        (trimSpace task.title = "" ∨ trimSpace task.title = "Pending title") →
        taskResumeStatus fs listing now task = "none")
    ∧ (graceActive task now = false → sizeSignal fs task = false →
        normalizeForMatch (trimSpace task.title) = "" →
        taskResumeStatus fs listing now task = "none")
    ∧ (graceActive task now = false → sizeSignal fs task = false →
        listing.any (entryReady task.createdAt (normalizeForMatch (trimSpace task.title))) = false →
        taskResumeStatus fs listing now task = "none") := by
  have hfound := foldl_walkStep_found task.createdAt
    (normalizeForMatch (trimSpace task.title)) listing (false, false)
  have hready := foldl_walkStep_ready task.createdAt
    (normalizeForMatch (trimSpace task.title)) listing (false, false)
  refine ⟨?_, ?_, ?_, ?_, ?_, ?_, ?_⟩
  · intro hg
    simp [taskResumeStatus, hg]
  · intro hg hs
    simp [taskResumeStatus, hg, hs]
  · intro hg hs ht1 ht2 hnt hany
    rw [taskResumeStatus]
    simp only [hg, hs, Bool.false_eq_true, if_false, if_true]
    rw [if_neg (by simp [ht1, ht2]), if_neg hnt]
    have : (walkFlags listing task.createdAt (normalizeForMatch (trimSpace task.title))).1 = true := by
      rw [walkFlags, hfound]
      simp [hany]
    rw [if_pos this]
  · intro hg hs ht1 ht2 hnt hany
    rw [taskResumeStatus]
    simp only [hg, hs, Bool.false_eq_true, if_false, if_true]
    rw [if_neg (by simp [ht1, ht2]), if_neg hnt]
    by_cases hf : (walkFlags listing task.createdAt (normalizeForMatch (trimSpace task.title))).1 = true
    · rw [if_pos hf]
    · rw [if_neg hf]
      have hf' : (walkFlags listing task.createdAt (normalizeForMatch (trimSpace task.title))).1 = false :=
        Bool.eq_false_iff.mpr hf
      have : (walkFlags listing task.createdAt (normalizeForMatch (trimSpace task.title))).2 = true := by
        have := hready
        rw [walkFlags] at hf' ⊢
        rw [hf'] at this
        simpa [hany] using this
      rw [if_pos this]
  · intro hg hs htitle
    rw [taskResumeStatus]
    simp only [hg, hs, Bool.false_eq_true, if_false, if_true]
    rw [if_pos htitle]
  · intro hg hs hnt
    rw [taskResumeStatus]
    simp only [hg, hs, Bool.false_eq_true, if_false, if_true]
    by_cases htitle : trimSpace task.title = "" ∨ trimSpace task.title = "Pending title"
    · rw [if_pos htitle]
    · rw [if_neg htitle, if_pos hnt]
  · intro hg hs hany
    rw [taskResumeStatus]
    simp only [hg, hs, Bool.false_eq_true, if_false, if_true]
    by_cases htitle : trimSpace task.title = "" ∨ trimSpace task.title = "Pending title"
    · rw [if_pos htitle]
    · rw [if_neg htitle]
      by_cases hnt : normalizeForMatch (trimSpace task.title) = ""
      · rw [if_pos hnt]
      · rw [if_neg hnt]
        have hboth : ((walkFlags listing task.createdAt (normalizeForMatch (trimSpace task.title))).1 ||
            (walkFlags listing task.createdAt (normalizeForMatch (trimSpace task.title))).2) = false := by
          rw [walkFlags, hready]
          simp [hany]
        have h1 : (walkFlags listing task.createdAt (normalizeForMatch (trimSpace task.title))).1 = false :=
          (Bool.or_eq_false_iff.mp hboth).1
        have h2 : (walkFlags listing task.createdAt (normalizeForMatch (trimSpace task.title))).2 = false :=
          (Bool.or_eq_false_iff.mp hboth).2
        rw [if_neg (by simp [h1]), if_neg (by simp [h2])]

/-- Witness for the amended C5: a task running 10 seconds ago reports
`none` even with a matching partial artifact on disk. -/
theorem resume_status_cases_witness :
    graceActive taskClip 110 = true
    ∧ taskResumeStatus fsEmpty [⟨"clip.part", false, 100⟩] 110 taskClip = "none" :=
  ⟨by decide,
    (resume_status_cases fsEmpty [⟨"clip.part", false, 100⟩] 110 taskClip).1 (by decide)⟩

/-- Counterexample to C5 as stated.  First facet: with the
non-placeholder title `"!!!"` (whose normalization is empty) and a
partial-marker file present, every normalized file name contains the
normalized title, so the claim requires `ready`, but the code returns
`none`.  Second facet: a partial-marker file modified exactly one minute
before the task's creation time satisfies the claim's "no earlier than"
fallback, but the code's strictly-after comparison returns `none`. -/
theorem resume_status_claim_counterexample :
    (taskResumeStatus fsEmpty [⟨"video.part", false, 0⟩] 2000 taskBang = "none"
      ∧ trimSpace taskBang.title ≠ ""
      ∧ trimSpace taskBang.title ≠ "Pending title"
      ∧ graceActive taskBang 2000 = false
      ∧ sizeSignal fsEmpty taskBang = false
      ∧ isPartialFile "video.part" = true
      ∧ (normalizeForMatch (trimSpace taskBang.title)).data <:+:
          (normalizeForMatch "video.part").data)
    ∧ (taskResumeStatus fsEmpty [⟨"other.part", false, 940⟩] 2000 taskReal = "none"
      ∧ taskReal.createdAt - 60 ≤ 940
      ∧ graceActive taskReal 2000 = false
      ∧ sizeSignal fsEmpty taskReal = false
      ∧ isPartialFile "other.part" = true) := by
  decide

/-! ## Best-format selection (claim C9) -/

theorem foldl_pickStep_spec :
    ∀ (formats : List YtdlpFormat) (acc : FormatInfo × Int),
      (formats.foldl pickStep acc = acc ∨
        ∃ f ∈ formats, formats.foldl pickStep acc = (formatInfoOf f, formatScore f))
      ∧ acc.2 ≤ (formats.foldl pickStep acc).2
      ∧ ∀ g ∈ formats, formatScore g ≤ (formats.foldl pickStep acc).2 := by
  intro formats
  induction formats with
  | nil => intro acc; exact ⟨Or.inl rfl, le_refl _, by simp⟩
  | cons f fs ih =>
    intro acc
    rw [List.foldl_cons]
    obtain ⟨hcases, hle, hall⟩ := ih (pickStep acc f)
    have hstep_le : acc.2 ≤ (pickStep acc f).2 := by
      rw [pickStep]
      split
      · exact le_of_lt (by assumption)
      · exact le_refl _
    have hstep_f : formatScore f ≤ (pickStep acc f).2 := by
      rw [pickStep]
      split
      · exact le_refl _
      · exact le_of_not_lt (by assumption)
    refine ⟨?_, le_trans hstep_le hle, ?_⟩
    · rcases hcases with h | ⟨g, hg, hr⟩
      · rw [h]
        rw [pickStep]
        split
        · exact Or.inr ⟨f, List.mem_cons_self _ _, rfl⟩
        · exact Or.inl rfl
      · exact Or.inr ⟨g, List.mem_cons_of_mem _ hg, hr⟩
    · intro g hg
      rcases List.mem_cons.mp hg with rfl | hg
      · exact le_trans hstep_f hle
      · exact hall g hg

/-- C9 (amended): when width/height and resolution are absent at the top
level, the fallback format variant is the one maximizing the per-variant
score "filesize if non-zero, else width×height" (first such variant on
ties), rather than maximizing filesize alone whenever any variant
reports one. -/
theorem pickBestFormat_scoring (info : YtdlpMetadata) (sourceURL : String)
    (hostOf : String → String)
    (hw : floatToInt info.width = 0) (hh : floatToInt info.height = 0)
    (hres : info.resolution = "")
    (hpos : ∃ f ∈ info.formats, 0 < formatScore f) :
    ∃ f ∈ info.formats,
      pickBestFormat info.formats = formatInfoOf f
      ∧ (∀ g ∈ info.formats, formatScore g ≤ formatScore f)
      ∧ (metadataFromInfo info sourceURL hostOf).width = (formatInfoOf f).width
      ∧ (metadataFromInfo info sourceURL hostOf).height = (formatInfoOf f).height := by
  obtain ⟨f0, hf0, hf0pos⟩ := hpos
  obtain ⟨hcases, _, hall⟩ := foldl_pickStep_spec info.formats
    ({ resolution := "", width := 0, height := 0, filesize := 0 }, 0)
  have hrpos : 0 < (info.formats.foldl pickStep
      ({ resolution := "", width := 0, height := 0, filesize := 0 }, 0)).2 :=
    lt_of_lt_of_le hf0pos (hall f0 hf0)
  rcases hcases with h | ⟨f, hf, hr⟩
  · rw [h] at hrpos
    exact absurd hrpos (by simp)
  · refine ⟨f, hf, ?_, ?_, ?_, ?_⟩
    · rw [pickBestFormat, hr]
    · intro g hg
      have := hall g hg
      rw [hr] at this
      exact this
    · rw [metadataFromInfo]
      simp only [hw, hh, hres]
      rw [pickBestFormat, hr]
      simp
    · rw [metadataFromInfo]
      simp only [hw, hh, hres]
      rw [pickBestFormat, hr]
      simp

/-- Witness for the amended C9 on the two fixture variants. -/
theorem pickBestFormat_scoring_witness :
    (∃ f ∈ metaInfoTwo.formats, 0 < formatScore f)
    ∧ ∃ f ∈ metaInfoTwo.formats,
        pickBestFormat metaInfoTwo.formats = formatInfoOf f
        ∧ (∀ g ∈ metaInfoTwo.formats, formatScore g ≤ formatScore f)
        ∧ (metadataFromInfo metaInfoTwo "https://example.com/a" (fun _ => "example.com")).width
            = (formatInfoOf f).width
        ∧ (metadataFromInfo metaInfoTwo "https://example.com/a" (fun _ => "example.com")).height
            = (formatInfoOf f).height :=
  ⟨by decide,
    pickBestFormat_scoring metaInfoTwo "https://example.com/a" (fun _ => "example.com")
      (by decide) (by decide) (by decide) (by decide)⟩

/-- Counterexample to C9 as stated: `fmtSized` reports a filesize (100)
and `fmtLarge` reports none, so the claim requires the fallback variant
to be `fmtSized` (largest filesize among all variants); the code instead
scores the size-less 1000×1000 variant higher and picks it. -/
theorem pickBestFormat_claim_counterexample :
    fmtSized.filesize = some 100
    ∧ fmtLarge.filesize = none ∧ fmtLarge.filesizeApprox = none
    ∧ pickBestFormat [fmtSized, fmtLarge] ≠ formatInfoOf fmtSized
    ∧ pickBestFormat [fmtSized, fmtLarge] = formatInfoOf fmtLarge := by
  decide

/-! ## Overwrite-downloaded import preprocessing (claim C8) -/

/-- C8: with `overwriteDownloaded` set, every incoming `Success` record
is reset to `Queued` with progress, output path and error cleared before
merge/replace processing; `missingOutput` is recomputed from disk for
every incoming record; and the spec's `/gone` scenario yields a stored
`Queued` task with empty output path and error that is enqueued. -/
theorem import_overwrite_reset (fs : FS) :
    (∀ t : Task, t.status = statusSuccess →
      procRecord fs true t =
        { t with status := statusQueued, progress := "", outputPath := "",
                 missingOutput := false, errorMessage := "" })
    ∧ (∀ (ow : Bool) (t : Task),
        (procRecord fs ow t).missingOutput =
          outputMissing fs (procRecord fs ow t).outputPath)
    ∧ (lookupTask (importTasks fsEmpty ⟨[], [], []⟩ [xgone] "merge" true).1.tasks "x"
        = some xgoneReset)
    ∧ ((importTasks fsEmpty ⟨[], [], []⟩ [xgone] "merge" true).1.queue = ["x"])
    ∧ ((importTasks fsEmpty ⟨[], [], []⟩ [xgone] "merge" true).2.2 = none) := by
  refine ⟨?_, ?_, by decide, by decide, by decide⟩
  · intro t h
    have hfalse : outputMissing fs "" = false := by
      rw [outputMissing, if_pos (show trimSpace "" = "" from by decide)]
    simp [procRecord, h, hfalse]
  · intro ow t
    rfl

/-- Witness for C8 on the `/gone` scenario record. -/
theorem import_overwrite_reset_witness :
    xgone.status = statusSuccess
    ∧ procRecord fsEmpty true xgone = xgoneReset :=
  ⟨by decide, (import_overwrite_reset fsEmpty).1 xgone (by decide)⟩

/-! ## Merge-mode import (claim C3) -/

theorem mergeGo_lookup_untouched :
    ∀ (items : List Task) (tasks : List (String × Task)) (id : String),
      (∀ t ∈ items, t.id ≠ id) →
      lookupTask (mergeGo tasks items).1 id = lookupTask tasks id := by
  intro items
  induction items with
  | nil => intro tasks id _; rfl
  | cons item rest ih =>
    intro tasks id hne
    have hid : item.id ≠ id := hne item (List.mem_cons_self _ _)
    have hrest : ∀ t ∈ rest, t.id ≠ id :=
      fun t ht => hne t (List.mem_cons_of_mem _ ht)
    rw [mergeGo]
    cases hl : lookupTask tasks item.id with
    | some existing =>
      dsimp only
      by_cases hcmp : existing.updatedAt < item.updatedAt
      · rw [if_pos hcmp, ih _ _ hrest,
          lookupTask_updateEntry_ne _ _ (fun hc => hid hc.symm)]
      · rw [if_neg hcmp, ih _ _ hrest]
    | none =>
      dsimp only
      rw [ih _ _ hrest, lookupTask_append]
      cases hl2 : lookupTask tasks id with
      | some t => rfl
      | none =>
        simp only [lookupTask]
        rw [if_neg hid]

theorem mergeGo_lookup_target :
    ∀ (items : List Task) (tasks : List (String × Task)) (t' T : Task),
      (items.map (fun t => t.id)).Nodup → t' ∈ items →
      lookupTask tasks t'.id = some T →
      lookupTask (mergeGo tasks items).1 t'.id =
        if T.updatedAt < t'.updatedAt then
          some { t' with createdAt := T.createdAt }
        else some T := by
  intro items
  induction items with
  | nil => intro tasks t' T _ hmem; cases hmem
  | cons item rest ih =>
    intro tasks t' T hnd hmem hT
    have hnd' : (rest.map (fun t => t.id)).Nodup := (List.nodup_cons.mp hnd).2
    have hhead : item.id ∉ rest.map (fun t => t.id) := (List.nodup_cons.mp hnd).1
    rcases List.mem_cons.mp hmem with rfl | hmem
    · rw [mergeGo, hT]
      dsimp only
      have hrest : ∀ t ∈ rest, t.id ≠ t'.id := by
        intro t ht hc
        exact hhead (hc ▸ List.mem_map_of_mem (fun t => t.id) ht)
      by_cases hcmp : T.updatedAt < t'.updatedAt
      · rw [if_pos hcmp, if_pos hcmp, mergeGo_lookup_untouched rest _ _ hrest,
          lookupTask_updateEntry_self _ _ _ _ hT]
      · rw [if_neg hcmp, if_neg hcmp, mergeGo_lookup_untouched rest _ _ hrest, hT]
    · have hne : item.id ≠ t'.id := by
        intro hc
        exact hhead (hc ▸ List.mem_map_of_mem (fun t => t.id) hmem)
      rw [mergeGo]
      cases hl : lookupTask tasks item.id with
      | some existing =>
        dsimp only
        by_cases hcmp : existing.updatedAt < item.updatedAt
        · rw [if_pos hcmp]
          exact ih _ t' T hnd' hmem
            (by rw [lookupTask_updateEntry_ne _ _ (fun hc => hne hc.symm)]; exact hT)
        · rw [if_neg hcmp]
          exact ih _ t' T hnd' hmem hT
      | none =>
        dsimp only
        refine ih _ t' T hnd' hmem ?_
        rw [lookupTask_append, hT]

theorem mergeGo_order_enqueue :
    ∀ (items : List Task) (tasks : List (String × Task)),
      (items.map (fun t => t.id)).Nodup →
      (mergeGo tasks items).2.1 =
        (items.filter (fun t => (lookupTask tasks t.id).isNone)).map (fun t => t.id)
      ∧ (mergeGo tasks items).2.2 =
        (items.filter (fun t =>
          (lookupTask tasks t.id).isNone && (t.status == statusQueued))).map (fun t => t.id) := by
  intro items
  induction items with
  | nil => intro tasks _; exact ⟨rfl, rfl⟩
  | cons item rest ih =>
    intro tasks hnd
    have hnd' : (rest.map (fun t => t.id)).Nodup := (List.nodup_cons.mp hnd).2
    have hhead : item.id ∉ rest.map (fun t => t.id) := (List.nodup_cons.mp hnd).1
    have hne : ∀ t ∈ rest, t.id ≠ item.id := by
      intro t ht hc
      exact hhead (hc ▸ List.mem_map_of_mem (fun t => t.id) ht)
    rw [mergeGo]
    cases hl : lookupTask tasks item.id with
    | some existing =>
      dsimp only
      have hfilter : ∀ ts', (∀ id', id' ≠ item.id →
            lookupTask ts' id' = lookupTask tasks id') →
          (rest.filter (fun t => (lookupTask ts' t.id).isNone)) =
            (rest.filter (fun t => (lookupTask tasks t.id).isNone)) ∧
          (rest.filter (fun t => (lookupTask ts' t.id).isNone && (t.status == statusQueued))) =
            (rest.filter (fun t =>
              (lookupTask tasks t.id).isNone && (t.status == statusQueued))) := by
        intro ts' hsame
        constructor
        · apply List.filter_congr
          intro t ht
          rw [hsame t.id (hne t ht)]
        · apply List.filter_congr
          intro t ht
          rw [hsame t.id (hne t ht)]
      by_cases hcmp : existing.updatedAt < item.updatedAt
      · rw [if_pos hcmp]
        obtain ⟨h1, h2⟩ := ih (updateEntry tasks item.id
          { item with createdAt := existing.createdAt }) hnd'
        obtain ⟨hf1, hf2⟩ := hfilter _ (fun id' hid' => lookupTask_updateEntry_ne _ _ hid')
        rw [h1, h2, hf1, hf2]
        constructor
        · rw [List.filter_cons_of_neg (by simp [hl])]
        · rw [List.filter_cons_of_neg (by simp [hl])]
      · rw [if_neg hcmp]
        obtain ⟨h1, h2⟩ := ih tasks hnd'
        rw [h1, h2]
        constructor
        · rw [List.filter_cons_of_neg (by simp [hl])]
        · rw [List.filter_cons_of_neg (by simp [hl])]
    | none =>
      dsimp only
      obtain ⟨h1, h2⟩ := ih (tasks ++ [(item.id, item)]) hnd'
      have hsame : ∀ t ∈ rest,
          lookupTask (tasks ++ [(item.id, item)]) t.id = lookupTask tasks t.id := by
        intro t ht
        rw [lookupTask_append]
        cases hl2 : lookupTask tasks t.id with
        | some u => rfl
        | none =>
          simp only [lookupTask]
          rw [if_neg (fun hc => hne t ht hc.symm)]
      constructor
      · rw [h1, List.filter_cons_of_pos (by simp [hl]),
          List.filter_congr (fun t ht => by rw [hsame t ht])]
        rfl
      · rw [h2]
        by_cases hq : item.status == statusQueued
        · rw [List.filter_cons_of_pos (by simp [hl, hq]),
            List.filter_congr (fun t ht => by rw [hsame t ht])]
          simp only [List.map_cons]
          rw [if_pos (by simpa using hq)]
        · rw [List.filter_cons_of_neg (by simp [hl, hq]),
            List.filter_congr (fun t ht => by rw [hsame t ht])]
          rw [if_neg (by simpa using hq)]

/-- C3: merge-mode import never regresses a task — an incoming record no
newer than the stored one leaves it unchanged, a strictly newer one
replaces it except that the original `createdAt` is preserved; records
with new ids are appended at the end of `order`, and exactly the newly
inserted records in `Queued` status are enqueued.  (Stated on the merge
phase, i.e. on the records as they enter the `merge` branch.) -/
theorem merge_import_no_regress (s : AppState) (items : List Task)
    (t' T : Task) (hnd : (items.map (fun t => t.id)).Nodup)
    (hmem : t' ∈ items) (hT : lookupTask s.tasks t'.id = some T) :
    (t'.updatedAt ≤ T.updatedAt →
      lookupTask (mergePhase s items).1.tasks t'.id = some T)
    ∧ (T.updatedAt < t'.updatedAt →
      lookupTask (mergePhase s items).1.tasks t'.id =
        some { t' with createdAt := T.createdAt })
    ∧ (mergePhase s items).1.order =
        s.order ++ (items.filter (fun t =>
          (lookupTask s.tasks t.id).isNone)).map (fun t => t.id)
    ∧ (mergePhase s items).2 =
        (items.filter (fun t =>
          (lookupTask s.tasks t.id).isNone && (t.status == statusQueued))).map (fun t => t.id)
    ∧ (mergePhase s items).1.queue = s.queue ++ (mergePhase s items).2 := by
  have htarget := mergeGo_lookup_target items s.tasks t' T hnd hmem hT
  obtain ⟨horder, henq⟩ := mergeGo_order_enqueue items s.tasks hnd
  refine ⟨?_, ?_, ?_, ?_, ?_⟩
  · intro hle
    rw [show (mergePhase s items).1.tasks = (mergeGo s.tasks items).1 from rfl,
      htarget, if_neg (not_lt_of_le hle)]
  · intro hlt
    rw [show (mergePhase s items).1.tasks = (mergeGo s.tasks items).1 from rfl,
      htarget, if_pos hlt]
  · rw [show (mergePhase s items).1.order = s.order ++ (mergeGo s.tasks items).2.1 from rfl,
      horder]
  · rw [show (mergePhase s items).2 = (mergeGo s.tasks items).2.2 from rfl, henq]
  · rfl

/-- Witness for C3: an incoming record for `x` with an older `updatedAt`
leaves the stored task unchanged. -/
theorem merge_import_no_regress_witness :
    lookupTask stateX10.tasks "x" = some taskX10
    ∧ itemX5.updatedAt ≤ taskX10.updatedAt
    ∧ lookupTask (mergePhase stateX10 [itemX5]).1.tasks "x" = some taskX10 :=
  ⟨by decide, by decide,
    (merge_import_no_regress stateX10 [itemX5] itemX5 taskX10
      (by decide) (by decide) (by decide)).1 (by decide)⟩

/-! ## Store invariant lemmas (claim C2) -/

theorem zip_map_snd_take (urls ids : List String) :
    (urls.zip ids).map (fun p => p.2) = ids.take urls.length := by
  induction urls generalizing ids with
  | nil => simp
  | cons u us ih =>
    cases ids with
    | nil => simp
    | cons i is => simp [ih]

theorem procRecord_id (fs : FS) (ow : Bool) (t : Task) :
    (procRecord fs ow t).id = t.id := by
  rw [procRecord]
  split <;> rfl

theorem updateEntry_entries_id {ts : List (String × Task)} {id : String}
    {t' : Task} (h : ∀ p ∈ ts, p.2.id = p.1) (ht : t'.id = id) :
    ∀ p ∈ updateEntry ts id t', p.2.id = p.1 := by
  intro p hp
  rw [updateEntry] at hp
  obtain ⟨q, hq, hpq⟩ := List.mem_map.mp hp
  by_cases hk : q.1 = id
  · rw [if_pos hk] at hpq
    rw [← hpq]
    simpa [ht] using hk.symm
  · rw [if_neg hk] at hpq
    exact hpq ▸ h q hq

theorem lookupTask_entry_list (items : List Task) (id : String) :
    (lookupTask (items.map (fun t => (t.id, t))) id).isSome ↔
      id ∈ items.map (fun t => t.id) := by
  rw [lookupTask_isSome_iff]
  simp [keysOf, List.map_map, Function.comp]

theorem create_fold_spec (env : Env) (now : Int) :
    ∀ (pairs : List (String × String)) (st : AppState),
      (∀ p ∈ pairs, lookupTask st.tasks p.2 = none) →
      ((pairs.map (fun p => p.2)).Nodup) →
      (pairs.foldl
        (fun st p =>
          { st with
            tasks := setTask st.tasks p.2 (newTaskFor env p.2 p.1 now)
            order := st.order ++ [p.2] }) st) =
        { tasks := st.tasks ++ pairs.map (fun p => (p.2, newTaskFor env p.2 p.1 now))
          order := st.order ++ pairs.map (fun p => p.2)
          queue := st.queue } := by
  intro pairs
  induction pairs with
  | nil => intro st _ _; simp
  | cons p rest ih =>
    intro st hfresh hnd
    have hp : lookupTask st.tasks p.2 = none := hfresh p (List.mem_cons_self _ _)
    have hnd' : ((rest.map (fun q => q.2)).Nodup) := (List.nodup_cons.mp hnd).2
    have hhead : p.2 ∉ rest.map (fun q => q.2) := (List.nodup_cons.mp hnd).1
    rw [List.foldl_cons]
    rw [ih _ ?_ hnd']
    · simp only [setTask, hp, Option.isSome_none, Bool.false_eq_true, if_false]
      simp [List.append_assoc]
    · intro q hq
      simp only [setTask, hp, Option.isSome_none, Bool.false_eq_true, if_false]
      rw [lookupTask_append, hfresh q (List.mem_cons_of_mem _ hq)]
      simp only [lookupTask]
      rw [if_neg ?_]
      intro hc
      exact hhead (hc ▸ List.mem_map_of_mem (fun q => q.2) hq)

theorem foldl_setTask_append :
    ∀ (items : List Task) (acc : List (String × Task)),
      (∀ t ∈ items, lookupTask acc t.id = none) →
      ((items.map (fun t => t.id)).Nodup) →
      items.foldl (fun ts t => setTask ts t.id t) acc =
        acc ++ items.map (fun t => (t.id, t)) := by
  intro items
  induction items with
  | nil => intro acc _ _; simp
  | cons t rest ih =>
    intro acc hfresh hnd
    have hp : lookupTask acc t.id = none := hfresh t (List.mem_cons_self _ _)
    have hnd' : ((rest.map (fun q => q.id)).Nodup) := (List.nodup_cons.mp hnd).2
    have hhead : t.id ∉ rest.map (fun q => q.id) := (List.nodup_cons.mp hnd).1
    rw [List.foldl_cons]
    rw [show setTask acc t.id t = acc ++ [(t.id, t)] from setTask_fresh _ _ _ hp]
    rw [ih _ ?_ hnd']
    · simp [List.append_assoc]
    · intro q hq
      rw [lookupTask_append, hfresh q (List.mem_cons_of_mem _ hq)]
      simp only [lookupTask]
      rw [if_neg ?_]
      intro hc
      exact hhead (hc ▸ List.mem_map_of_mem (fun q => q.id) hq)

theorem loadTasks_spec :
    ∀ (items : List Task) (s : AppState),
      (∀ t ∈ items, lookupTask s.tasks t.id = none) →
      ((items.map (fun t => t.id)).Nodup) →
      loadTasks s items =
        { tasks := s.tasks ++ items.map (fun t => (t.id, t))
          order := s.order ++ items.map (fun t => t.id)
          queue := s.queue } := by
  intro items
  induction items with
  | nil => intro s _ _; simp [loadTasks]
  | cons t rest ih =>
    intro s hfresh hnd
    have hp : lookupTask s.tasks t.id = none := hfresh t (List.mem_cons_self _ _)
    have hnd' : ((rest.map (fun q => q.id)).Nodup) := (List.nodup_cons.mp hnd).2
    have hhead : t.id ∉ rest.map (fun q => q.id) := (List.nodup_cons.mp hnd).1
    rw [loadTasks, List.foldl_cons]
    rw [show setTask s.tasks t.id t = s.tasks ++ [(t.id, t)] from setTask_fresh _ _ _ hp]
    rw [show ∀ st items', List.foldl
        (fun st (t : Task) => { st with tasks := setTask st.tasks t.id t, order := st.order ++ [t.id] })
        st items' = loadTasks st items' from fun _ _ => rfl]
    rw [ih _ ?_ hnd']
    · simp [List.append_assoc]
    · intro q hq
      simp only
      rw [lookupTask_append, hfresh q (List.mem_cons_of_mem _ hq)]
      simp only [lookupTask]
      rw [if_neg ?_]
      intro hc
      exact hhead (hc ▸ List.mem_map_of_mem (fun q => q.id) hq)

theorem mergeGo_keys :
    ∀ (items : List Task) (tasks : List (String × Task)),
      ((items.map (fun t => t.id)).Nodup) →
      keysOf (mergeGo tasks items).1 =
        keysOf tasks ++
          (items.filter (fun t => (lookupTask tasks t.id).isNone)).map (fun t => t.id) := by
  intro items
  induction items with
  | nil => intro tasks _; simp [mergeGo]
  | cons item rest ih =>
    intro tasks hnd
    have hnd' : (rest.map (fun t => t.id)).Nodup := (List.nodup_cons.mp hnd).2
    have hhead : item.id ∉ rest.map (fun t => t.id) := (List.nodup_cons.mp hnd).1
    have hne : ∀ t ∈ rest, t.id ≠ item.id := by
      intro t ht hc
      exact hhead (hc ▸ List.mem_map_of_mem (fun t => t.id) ht)
    rw [mergeGo]
    cases hl : lookupTask tasks item.id with
    | some existing =>
      dsimp only
      by_cases hcmp : existing.updatedAt < item.updatedAt
      · rw [if_pos hcmp, ih _ hnd', keysOf_updateEntry,
          List.filter_cons_of_neg (by simp [hl]),
          List.filter_congr (fun t ht => by
            rw [lookupTask_updateEntry_ne _ _ (hne t ht)])]
      · rw [if_neg hcmp, ih _ hnd', List.filter_cons_of_neg (by simp [hl])]
    | none =>
      dsimp only
      have hcong : rest.filter
            (fun t => (lookupTask (tasks ++ [(item.id, item)]) t.id).isNone)
          = rest.filter (fun t => (lookupTask tasks t.id).isNone) := by
        apply List.filter_congr
        intro t ht
        rw [lookupTask_append]
        cases hl2 : lookupTask tasks t.id with
        | some u => rfl
        | none =>
          simp only [lookupTask]
          rw [if_neg (fun hc => hne t ht hc.symm)]
      rw [ih _ hnd', keysOf_append,
        List.filter_cons_of_pos (by simp [hl]), hcong]
      simp [keysOf, List.append_assoc]

theorem mergeGo_entries_id :
    ∀ (items : List Task) (tasks : List (String × Task)),
      (∀ p ∈ tasks, p.2.id = p.1) →
      ∀ p ∈ (mergeGo tasks items).1, p.2.id = p.1 := by
  intro items
  induction items with
  | nil => intro tasks h; exact h
  | cons item rest ih =>
    intro tasks h
    rw [mergeGo]
    cases hl : lookupTask tasks item.id with
    | some existing =>
      dsimp only
      by_cases hcmp : existing.updatedAt < item.updatedAt
      · rw [if_pos hcmp]
        exact ih _ (updateEntry_entries_id h rfl)
      · rw [if_neg hcmp]
        exact ih _ h
    | none =>
      dsimp only
      refine ih _ ?_
      intro p hp
      rcases List.mem_append.mp hp with hp | hp
      · exact h p hp
      · rcases List.mem_singleton.mp hp with rfl
        rfl

theorem lookupTask_none_iff_keys (ts : List (String × Task)) (id : String) :
    lookupTask ts id = none ↔ id ∉ keysOf ts := by
  rw [← lookupTask_isSome_iff, ← Option.not_isSome_iff_eq_none]

theorem WF_empty : WF ⟨[], [], []⟩ := by
  refine ⟨List.nodup_nil, ?_, List.nodup_nil, ?_⟩
  · intro id
    simp [lookupTask]
  · intro p hp
    cases hp

/-- Well-formedness of any state whose key list extends the original one
by fresh, duplicate-free ids, with `order` extended by the same ids. -/
theorem WF_append_shape (s : AppState) (hwf : WF s) (newIds : List String)
    (q : List String) (tasks' : List (String × Task))
    (hkeys : keysOf tasks' = keysOf s.tasks ++ newIds)
    (hnd : newIds.Nodup)
    (hfresh : ∀ i ∈ newIds, i ∉ keysOf s.tasks)
    (hid : ∀ p ∈ tasks', p.2.id = p.1) :
    WF ⟨tasks', s.order ++ newIds, q⟩ := by
  obtain ⟨hnd_o, hmem, hnd_k, _⟩ := hwf
  have horder_keys : ∀ id, id ∈ s.order ↔ id ∈ keysOf s.tasks := by
    intro id
    rw [hmem id, lookupTask_isSome_iff]
  refine ⟨?_, ?_, ?_, hid⟩
  · refine List.Nodup.append hnd_o hnd ?_
    intro a ha hb
    exact hfresh a hb ((horder_keys a).mp ha)
  · intro id
    rw [show (⟨tasks', s.order ++ newIds, q⟩ : AppState).order = s.order ++ newIds from rfl]
    rw [List.mem_append, horder_keys id,
      show (⟨tasks', s.order ++ newIds, q⟩ : AppState).tasks = tasks' from rfl,
      lookupTask_isSome_iff, hkeys, List.mem_append]
  · rw [show (⟨tasks', s.order ++ newIds, q⟩ : AppState).tasks = tasks' from rfl, hkeys]
    refine List.Nodup.append hnd_k hnd ?_
    intro a ha hb
    exact hfresh a hb ha

/-- Well-formedness of a store rebuilt from scratch (`replace` import). -/
theorem WF_rebuild (items : List Task) (q : List String)
    (hnd : (items.map (fun t => t.id)).Nodup) :
    WF ⟨items.map (fun t => (t.id, t)), items.map (fun t => t.id), q⟩ := by
  refine ⟨hnd, ?_, ?_, ?_⟩
  · intro id
    rw [show (⟨items.map (fun t => (t.id, t)), items.map (fun t => t.id), q⟩ : AppState).tasks
        = items.map (fun t => (t.id, t)) from rfl]
    rw [lookupTask_entry_list]
  · rw [show (⟨items.map (fun t => (t.id, t)), items.map (fun t => t.id), q⟩ : AppState).tasks
        = items.map (fun t => (t.id, t)) from rfl]
    simpa [keysOf, List.map_map, Function.comp] using hnd
  · intro p hp
    obtain ⟨t, _, rfl⟩ := List.mem_map.mp hp
    rfl

/-- The state produced by `CreateTasksFromText` in closed form. -/
theorem createTasksFromText_state (env : Env) (s : AppState) (text : String)
    (ids : List String) (now : Int) (hnd : ids.Nodup)
    (hfresh : ∀ i ∈ ids, lookupTask s.tasks i = none) :
    (createTasksFromText env s text ids now).2 =
      { tasks := s.tasks ++
          ((extractURLs text).zip ids).map (fun p => (p.2, newTaskFor env p.2 p.1 now))
        order := s.order ++ ((extractURLs text).zip ids).map (fun p => p.2)
        queue := s.queue ++ ((extractURLs text).zip ids).map (fun p => p.2) } := by
  rw [createTasksFromText]
  by_cases hurls : extractURLs text = []
  · rw [if_pos hurls, hurls]
    simp
  · rw [if_neg hurls]
    have hpair_fresh : ∀ p ∈ (extractURLs text).zip ids,
        lookupTask s.tasks p.2 = none :=
      fun p hp => hfresh p.2 (List.of_mem_zip hp).2
    have hpair_nd : (((extractURLs text).zip ids).map (fun p => p.2)).Nodup := by
      rw [zip_map_snd_take]
      exact hnd.sublist (List.take_sublist _ _)
    dsimp only
    rw [create_fold_spec env now _ s hpair_fresh hpair_nd]

/-- C2 (amended): provided freshly generated ids are distinct and
unused, the import payload ids are pairwise distinct, and load payloads
are distinct and disjoint from the store, every store operation (create,
delete, merge or replace import, load) preserves the invariant that `order` lists
exactly the live ids, each exactly once, with every stored task's `id`
equal to its key; and `order` evolves by appending first-seen ids,
filtering out the deleted id, or rebuilding in payload order. -/
theorem store_order_invariant (s : AppState) (op : StoreOp)
    (hwf : WF s) (hok : opOK s op) :
    WF (applyOp s op) ∧ orderEvolved s op := by
  cases op with
  | createOp env text ids now =>
    obtain ⟨hnd, hfresh⟩ := hok
    have hstate := createTasksFromText_state env s text ids now hnd hfresh
    have hzipnd : (((extractURLs text).zip ids).map (fun p => p.2)).Nodup := by
      rw [zip_map_snd_take]
      exact hnd.sublist (List.take_sublist _ _)
    constructor
    · rw [show applyOp s (.createOp env text ids now) =
        (createTasksFromText env s text ids now).2 from rfl, hstate]
      refine WF_append_shape s hwf _ _ _ ?_ hzipnd ?_ ?_
      · rw [keysOf_append]
        congr 1
        simp [keysOf, List.map_map, Function.comp]
      · intro i hi
        obtain ⟨p, hp, rfl⟩ := List.mem_map.mp hi
        rw [← lookupTask_none_iff_keys]
        exact hfresh p.2 (List.of_mem_zip hp).2
      · intro p hp
        rcases List.mem_append.mp hp with hp | hp
        · exact hwf.2.2.2 p hp
        · obtain ⟨q, _, rfl⟩ := List.mem_map.mp hp
          rfl
    · show (applyOp s (.createOp env text ids now)).order =
        s.order ++ ((extractURLs text).zip ids).map (fun p => p.2)
      rw [show applyOp s (.createOp env text ids now) =
        (createTasksFromText env s text ids now).2 from rfl, hstate]
  | deleteOp fs trashOk id =>
    have hcases : (deleteTask fs trashOk s id).1 = s ∨
        (deleteTask fs trashOk s id).1 =
          { s with
            tasks := removeTask s.tasks id
            order := s.order.filter (fun existing => existing ≠ id) } := by
      rw [deleteTask]
      cases hl : lookupTask s.tasks id with
      | none => exact Or.inl rfl
      | some task =>
        dsimp only
        split
        · exact Or.inl rfl
        · exact Or.inr rfl
    rcases hcases with h | h
    · exact ⟨by rw [show applyOp s (.deleteOp fs trashOk id) =
          (deleteTask fs trashOk s id).1 from rfl, h]; exact hwf,
        Or.inr (by rw [show applyOp s (.deleteOp fs trashOk id) =
          (deleteTask fs trashOk s id).1 from rfl, h])⟩
    · obtain ⟨hnd_o, hmem, hnd_k, hid⟩ := hwf
      constructor
      · rw [show applyOp s (.deleteOp fs trashOk id) =
          (deleteTask fs trashOk s id).1 from rfl, h]
        refine ⟨hnd_o.filter _, ?_, ?_, ?_⟩
        · intro id'
          by_cases hii : id' = id
          · subst hii
            simp [List.mem_filter, lookupTask_removeTask_self]
          · simp only [List.mem_filter]
            rw [lookupTask_removeTask_ne _ hii, ← hmem id']
            simp [hii]
        · rw [show ({ s with
              tasks := removeTask s.tasks id
              order := s.order.filter (fun existing => existing ≠ id) } : AppState).tasks
            = removeTask s.tasks id from rfl, keysOf_removeTask]
          exact hnd_k.filter _
        · intro p hp
          exact hid p (List.mem_of_mem_filter hp)
      · exact Or.inl (by rw [show applyOp s (.deleteOp fs trashOk id) =
          (deleteTask fs trashOk s id).1 from rfl, h])
  | importOp fs items mode ow =>
    have hpid : (items.map (procRecord fs ow)).map (fun t => t.id) =
        items.map (fun t => t.id) := by
      rw [List.map_map]
      exact List.map_congr_left (fun t _ => procRecord_id fs ow t)
    have hndp : ((items.map (procRecord fs ow)).map (fun t => t.id)).Nodup := by
      rw [hpid]; exact hok
    by_cases hblank : (items.any (fun t => trimSpace t.id = "")) = true
    · have hs : (importTasks fs s items mode ow).1 = s := by
        rw [importTasks, if_pos hblank]
      refine ⟨by rw [show applyOp s (.importOp fs items mode ow) =
          (importTasks fs s items mode ow).1 from rfl, hs]; exact hwf, ?_, ?_, ?_⟩
      · intro _
        exact Or.inr (by rw [show applyOp s (.importOp fs items mode ow) =
          (importTasks fs s items mode ow).1 from rfl, hs])
      · intro _
        exact Or.inr (by rw [show applyOp s (.importOp fs items mode ow) =
          (importTasks fs s items mode ow).1 from rfl, hs])
      · intro _ _
        rw [show applyOp s (.importOp fs items mode ow) =
          (importTasks fs s items mode ow).1 from rfl, hs]
    · have hblank' : (items.any (fun t => trimSpace t.id = "")) = false :=
        Bool.eq_false_iff.mpr hblank
      by_cases hm : mode = "merge"
      · have hs : (importTasks fs s items mode ow).1 =
            (mergePhase s (items.map (procRecord fs ow))).1 := by
          rw [importTasks, if_neg (by rw [hblank']; simp), if_pos hm]
        have horder := (mergeGo_order_enqueue (items.map (procRecord fs ow)) s.tasks hndp).1
        have hkeys := mergeGo_keys (items.map (procRecord fs ow)) s.tasks hndp
        have hstate : (mergePhase s (items.map (procRecord fs ow))).1 =
            ⟨(mergeGo s.tasks (items.map (procRecord fs ow))).1,
              s.order ++ (((items.map (procRecord fs ow)).filter
                (fun t => (lookupTask s.tasks t.id).isNone)).map (fun t => t.id)),
              s.queue ++ (mergeGo s.tasks (items.map (procRecord fs ow))).2.2⟩ := by
          rw [mergePhase]
          dsimp only
          rw [horder]
        refine ⟨?_, ?_, ?_, ?_⟩
        · rw [show applyOp s (.importOp fs items mode ow) =
            (importTasks fs s items mode ow).1 from rfl, hs, hstate]
          refine WF_append_shape s hwf _ _ _ hkeys ?_ ?_ ?_
          · exact hndp.sublist ((List.filter_sublist _).map _)
          · intro i hi
            obtain ⟨t, ht, rfl⟩ := List.mem_map.mp hi
            have := List.of_mem_filter ht
            rw [← lookupTask_none_iff_keys]
            simpa using this
          · exact mergeGo_entries_id _ _ hwf.2.2.2
        · intro _
          refine Or.inl ?_
          rw [show applyOp s (.importOp fs items mode ow) =
            (importTasks fs s items mode ow).1 from rfl, hs, hstate]
        · intro hrep
          exact absurd (hm ▸ hrep) (by decide)
        · intro h1 _
          exact absurd hm h1
      · by_cases hr : mode = "replace"
        · have hs : (importTasks fs s items mode ow).1 =
              (replacePhase s (items.map (procRecord fs ow))).1 := by
            rw [importTasks, if_neg (by rw [hblank']; simp), if_neg hm, if_pos hr]
          have hstate : (replacePhase s (items.map (procRecord fs ow))).1 =
              ⟨(items.map (procRecord fs ow)).map (fun t => (t.id, t)),
                (items.map (procRecord fs ow)).map (fun t => t.id),
                s.queue ++ (((items.map (procRecord fs ow)).filter
                  (fun t => t.status = statusQueued)).map (fun t => t.id))⟩ := by
            rw [replacePhase]
            dsimp only
            rw [foldl_setTask_append _ [] (fun t _ => rfl) hndp]
            rw [List.nil_append]
          refine ⟨?_, ?_, ?_, ?_⟩
          · rw [show applyOp s (.importOp fs items mode ow) =
              (importTasks fs s items mode ow).1 from rfl, hs, hstate]
            exact WF_rebuild _ _ hndp
          · intro hmm
            exact absurd (hr ▸ hmm) (by decide)
          · intro _
            refine Or.inl ?_
            rw [show applyOp s (.importOp fs items mode ow) =
              (importTasks fs s items mode ow).1 from rfl, hs, hstate]
          · intro _ h2
            exact absurd hr h2
        · have hs : (importTasks fs s items mode ow).1 = s := by
            rw [importTasks, if_neg (by rw [hblank']; simp), if_neg hm, if_neg hr]
          refine ⟨by rw [show applyOp s (.importOp fs items mode ow) =
              (importTasks fs s items mode ow).1 from rfl, hs]; exact hwf, ?_, ?_, ?_⟩
          · intro hmm
            exact absurd hmm hm
          · intro hrr
            exact absurd hrr hr
          · intro _ _
            rw [show applyOp s (.importOp fs items mode ow) =
              (importTasks fs s items mode ow).1 from rfl, hs]
  | loadOp items =>
    obtain ⟨hnd, hfresh⟩ := hok
    have hstate := loadTasks_spec items s hfresh hnd
    constructor
    · rw [show applyOp s (.loadOp items) = loadTasks s items from rfl, hstate]
      refine WF_append_shape s hwf _ _ _ ?_ hnd ?_ ?_
      · rw [keysOf_append]
        congr 1
        simp [keysOf, List.map_map, Function.comp]
      · intro i hi
        obtain ⟨t, ht, rfl⟩ := List.mem_map.mp hi
        rw [← lookupTask_none_iff_keys]
        exact hfresh t ht
      · intro p hp
        rcases List.mem_append.mp hp with hp | hp
        · exact hwf.2.2.2 p hp
        · obtain ⟨t, _, rfl⟩ := List.mem_map.mp hp
          rfl
    · show (applyOp s (.loadOp items)).order = s.order ++ items.map (fun t => t.id)
      rw [show applyOp s (.loadOp items) = loadTasks s items from rfl, hstate]

/-- Witness for the amended C2: loading one record into the empty store
keeps the invariant. -/
theorem store_order_invariant_witness :
    ((([xgone].map (fun t => t.id)).Nodup) ∧
      (∀ t ∈ [xgone], lookupTask (AppState.mk [] [] []).tasks t.id = none))
    ∧ WF (applyOp ⟨[], [], []⟩ (.loadOp [xgone])) :=
  ⟨⟨by decide, by decide⟩,
    (store_order_invariant ⟨[], [], []⟩ (.loadOp [xgone]) WF_empty
      ⟨by decide, by decide⟩).1⟩

/-- Counterexample to C2 as stated: replace-importing a payload that
repeats an id, starting from the (well-formed) empty store, leaves
`order` with a duplicate entry, so `order` does not contain each live id
exactly once. -/
theorem store_order_invariant_counterexample :
    WF ⟨[], [], []⟩
    ∧ (applyOp ⟨[], [], []⟩ (.importOp fsEmpty [xgone, xgone] "replace" false)).order
        = ["x", "x"]
    ∧ ¬ (applyOp ⟨[], [], []⟩
        (.importOp fsEmpty [xgone, xgone] "replace" false)).order.Nodup :=
  ⟨WF_empty, by decide, by decide⟩

/-! ## Export / replace-import round-trip (claim C4) -/

theorem filterMap_congr_on (ord : List String) (f g : String → Option Task)
    (h : ∀ a ∈ ord, f a = g a) : ord.filterMap f = ord.filterMap g := by
  induction ord with
  | nil => rfl
  | cons a rest ih =>
    rw [List.filterMap_cons, List.filterMap_cons, h a (List.mem_cons_self _ _),
      ih (fun b hb => h b (List.mem_cons_of_mem _ hb))]

theorem listTasks_map_id (s : AppState) (hwf : WF s) :
    (listTasks s).map (fun t => t.id) = s.order := by
  obtain ⟨_, hmem, _, hid⟩ := hwf
  rw [listTasks]
  have haux : ∀ ord : List String,
      (∀ a ∈ ord, (lookupTask s.tasks a).isSome) →
      (ord.filterMap (lookupTask s.tasks)).map (fun t => t.id) = ord := by
    intro ord
    induction ord with
    | nil => intro _; rfl
    | cons a rest ih =>
      intro hall
      obtain ⟨t, ht⟩ := Option.isSome_iff_exists.mp (hall a (List.mem_cons_self _ _))
      rw [List.filterMap_cons, ht]
      simp only [List.map_cons]
      rw [ih (fun b hb => hall b (List.mem_cons_of_mem _ hb)),
        hid (a, t) (lookupTask_mem ht)]
  exact haux s.order (fun a ha => (hmem a).mp ha)

theorem mem_listTasks_lookup (s : AppState) (hwf : WF s) :
    ∀ t ∈ listTasks s, lookupTask s.tasks t.id = some t := by
  obtain ⟨_, _, _, hid⟩ := hwf
  intro t ht
  rw [listTasks] at ht
  obtain ⟨a, _, ha⟩ := List.mem_filterMap.mp ht
  rw [show t.id = a from hid (a, t) (lookupTask_mem ha)]
  exact ha

theorem lookupTask_entry_list_eq :
    ∀ (items : List Task) (id : String) (t : Task),
      ((items.map (fun u => u.id)).Nodup) → t ∈ items → t.id = id →
      lookupTask (items.map (fun u => (u.id, u))) id = some t := by
  intro items
  induction items with
  | nil => intro id t _ hmem; cases hmem
  | cons h rest ih =>
    intro id t hnd hmem hid
    simp only [List.map_cons, lookupTask]
    rcases List.mem_cons.mp hmem with rfl | hmem
    · rw [if_pos hid]
    · have hne : h.id ≠ id := by
        intro hc
        have hmm : h.id ∈ List.map (fun u => u.id) rest := by
          rw [hc, ← hid]
          exact List.mem_map_of_mem (fun u => u.id) hmem
        exact (List.nodup_cons.mp hnd).1 hmm
      rw [if_neg hne]
      exact ih id t (List.nodup_cons.mp hnd).2 hmem hid

/-- C4 (amended): for every well-formed store state whose tasks have
non-blank ids and whose `missingOutput` fields agree with the current
disk state of their `outputPath`, exporting the task list and replace-
re-importing the exported payload in replace mode (`overwriteDownloaded` false)
reproduces an identical task list: same order, same map, same snapshot. -/
theorem export_import_replace_roundtrip (fs : FS) (s : AppState)
    (hwf : WF s)
    (hids : ∀ t ∈ listTasks s, trimSpace t.id ≠ "")
    (hmo : ∀ t ∈ listTasks s, t.missingOutput = outputMissing fs t.outputPath) :
    (importTasks fs s (exportTasks s) "replace" false).2.2 = none
    ∧ (importTasks fs s (exportTasks s) "replace" false).1.order = s.order
    ∧ (∀ id, lookupTask (importTasks fs s (exportTasks s) "replace" false).1.tasks id
        = lookupTask s.tasks id)
    ∧ listTasks (importTasks fs s (exportTasks s) "replace" false).1 = listTasks s
    ∧ (importTasks fs s (exportTasks s) "replace" false).2.1 = listTasks s := by
  have hproc : (listTasks s).map (procRecord fs false) = listTasks s := by
    have h1 : ∀ t ∈ listTasks s, procRecord fs false t = t := by
      intro t ht
      rw [procRecord]
      rw [if_neg (by simp), ← hmo t ht]
    calc (listTasks s).map (procRecord fs false)
        = (listTasks s).map (fun t => t) := List.map_congr_left h1
      _ = listTasks s := by simp
  have hblank : ((listTasks s).any (fun t => trimSpace t.id = "")) = false := by
    rw [List.any_eq_false]
    intro t ht
    simpa using hids t ht
  have hnodup : ((listTasks s).map (fun t => t.id)).Nodup := by
    rw [listTasks_map_id s hwf]
    exact hwf.1
  have hs : importTasks fs s (exportTasks s) "replace" false =
      ((replacePhase s (listTasks s)).1,
        listTasks (replacePhase s (listTasks s)).1, none) := by
    rw [importTasks]
    rw [show exportTasks s = listTasks s from rfl]
    rw [if_neg (by rw [hblank]; simp), hproc, if_neg (by decide), if_pos rfl]
  have hstate : (replacePhase s (listTasks s)).1 =
      ⟨(listTasks s).map (fun t => (t.id, t)),
        (listTasks s).map (fun t => t.id),
        s.queue ++ (((listTasks s).filter
          (fun t => t.status = statusQueued)).map (fun t => t.id))⟩ := by
    rw [replacePhase]
    dsimp only
    rw [foldl_setTask_append _ [] (fun t _ => rfl) hnodup, List.nil_append]
  have hlookup : ∀ id,
      lookupTask ((listTasks s).map (fun t => (t.id, t))) id =
        lookupTask s.tasks id := by
    intro id
    by_cases hin : id ∈ s.order
    · obtain ⟨t, ht⟩ := Option.isSome_iff_exists.mp ((hwf.2.1 id).mp hin)
      have htid : t.id = id := hwf.2.2.2 (id, t) (lookupTask_mem ht)
      have htmem : t ∈ listTasks s := by
        rw [listTasks]
        exact List.mem_filterMap.mpr ⟨id, hin, ht⟩
      rw [ht, lookupTask_entry_list_eq (listTasks s) id t hnodup htmem htid]
    · have h1 : lookupTask s.tasks id = none := by
        rw [lookupTask_none_iff_keys]
        intro hk
        exact hin ((hwf.2.1 id).mpr (by rw [lookupTask_isSome_iff]; exact hk))
      have h2 : lookupTask ((listTasks s).map (fun t => (t.id, t))) id = none := by
        rw [lookupTask_none_iff_keys]
        intro hk
        refine hin ?_
        rw [← listTasks_map_id s hwf]
        simpa [keysOf, List.map_map, Function.comp] using hk
      rw [h1, h2]
  have horder : (replacePhase s (listTasks s)).1.order = s.order := by
    rw [hstate]
    exact listTasks_map_id s hwf
  have hlist : listTasks (replacePhase s (listTasks s)).1 = listTasks s := by
    rw [hstate]
    show ((listTasks s).map (fun t => t.id)).filterMap
        (lookupTask ((listTasks s).map (fun t => (t.id, t)))) = listTasks s
    rw [listTasks_map_id s hwf]
    rw [filterMap_congr_on s.order _ _ (fun a _ => hlookup a)]
    rfl
  refine ⟨by rw [hs], by rw [hs]; exact horder, ?_, by rw [hs]; exact hlist,
    by rw [hs]; exact hlist⟩
  intro id
  rw [hs]
  show lookupTask (replacePhase s (listTasks s)).1.tasks id = lookupTask s.tasks id
  rw [hstate]
  exact hlookup id

theorem WF_stateGone : WF stateGone := by
  refine ⟨by decide, ?_, by decide, ?_⟩
  · intro id
    by_cases h : id = "x"
    · subst h
      simp [stateGone, lookupTask]
    · have h' : ¬ "x" = id := fun hc => h hc.symm
      simp [stateGone, lookupTask, h, h']
  · intro p hp
    rcases List.mem_singleton.mp hp with rfl
    rfl

/-- Witness for the amended C4: with the on-disk state matching the
stored `missingOutput`, the round-trip reproduces the task list. -/
theorem export_import_replace_roundtrip_witness :
    (∀ t ∈ listTasks stateGone, trimSpace t.id ≠ "")
    ∧ (∀ t ∈ listTasks stateGone, t.missingOutput = outputMissing fsGone t.outputPath)
    ∧ listTasks (importTasks fsGone stateGone (exportTasks stateGone) "replace" false).1
        = listTasks stateGone :=
  ⟨by decide, by decide,
    (export_import_replace_roundtrip fsGone stateGone WF_stateGone
      (by decide) (by decide)).2.2.2.1⟩

/-- Counterexample to C4 as stated: in `stateGone` the stored
`missingOutput` is stale (the file `/gone` no longer exists on the
all-empty filesystem), and the replace-import of the exported list
recomputes it, so the reproduced task list differs from the original. -/
theorem export_import_replace_roundtrip_counterexample :
    WF stateGone
    ∧ (importTasks fsEmpty stateGone (exportTasks stateGone) "replace" false).2.1
        ≠ listTasks stateGone
    ∧ lookupTask (importTasks fsEmpty stateGone (exportTasks stateGone)
        "replace" false).1.tasks "x" = some { xgone with missingOutput := true } :=
  ⟨WF_stateGone, by decide, by decide⟩

end FetchForge
